import Mathlib

/-!
Verification of the mew-mcp server against its natural-language
specification.  The definitions below are a shallow embedding of the
TypeScript source (src/src/mcp.ts, src/src/api/nodes.ts): pure fragments
become Lean functions, the remote graph store becomes explicit data
(lists of node records and relation records), and the level-by-level
traversal loops become structurally recursive functions whose fuel is
the loop bound from the source.  Theorems at the end settle the frozen
claims C1 to C10.
-/

namespace MewMcp

/-- Substring test, modelling the JavaScript String.prototype.includes
call used by getInitialStrategy. -/
def hasSub (needle : List Char) : List Char → Bool
  | [] => needle.isPrefixOf []
  | c :: t => needle.isPrefixOf (c :: t) || hasSub needle t

/-- Traversal strategy record, from previewContent / buildAdaptiveTree in
mcp.ts: a priority tag plus breadth and depth bounds. -/
structure Strategy where
  priority : String
  maxBreadth : Nat
  targetDepth : Nat
deriving DecidableEq, Repr

/-- getInitialStrategy from mcp.ts (identical in the previewContent and
buildAdaptiveTree variants): classify the root id into one of three
fixed strategies. -/
def getInitialStrategy (nodeId : String) : Strategy :=
  if nodeId = "global-root-id" then
    ⟨"breadth", 20, 2⟩
  else if hasSub "user-root-id".toList nodeId.toList then
    ⟨"balanced", 12, 3⟩
  else
    ⟨"depth", 8, 4⟩

/-- adjustStrategy from mcp.ts (lines 1324-1349 and 2026-2054, identical
text in both variants): one-time adjustment of the strategy from the
observed root fan-out. -/
def adjustStrategy (breadth : Nat) (currentStrategy : Strategy) : Strategy :=
  if breadth > 30 then
    { currentStrategy with
        targetDepth := min 2 currentStrategy.targetDepth,
        maxBreadth := min 25 (max 15 breadth) }
  else if breadth < 5 then
    { currentStrategy with
        targetDepth := min 4 (currentStrategy.targetDepth + 1),
        maxBreadth := max 8 breadth }
  else
    currentStrategy

/-- Modelled from the spec words of claim C3 (the sentences on fan-out
adjustment in section 4.2), for comparison with the source-derived
adjustStrategy: fan-out > 30 caps targetDepth at 2 and widens maxBreadth
to min(25, max(15, fanout)); fan-out < 5 increments targetDepth (capped
at 4) and sets maxBreadth to max(8, fanout); otherwise unchanged. -/
def adjustStrategySpec (fanout : Nat) (s : Strategy) : Strategy :=
  if fanout > 30 then
    { s with targetDepth := min 2 s.targetDepth,
             maxBreadth := min 25 (max 15 fanout) }
  else if fanout < 5 then
    { s with targetDepth := min 4 (s.targetDepth + 1),
             maxBreadth := max 8 fanout }
  else
    s

/-- A relation record as fetched from the remote layer endpoint
(src/src/types/node.ts and the fields read by nodes.ts): a typed,
directed edge. -/
structure Relation where
  id : String
  fromId : String
  toId : String
  relationTypeId : String
  canonicalRelationId : Option String := none
deriving DecidableEq, Repr

/-- A content block of a node record; only the text value is read by the
traversal and read-primitive code modelled here. -/
structure ContentBlock where
  blockType : String
  value : String
deriving DecidableEq, Repr

/-- A node record as fetched from the remote layer endpoint; only the id
and content fields are read by the code under verification. -/
structure GraphNode where
  id : String
  content : List ContentBlock := []
deriving DecidableEq, Repr

/-- A layer-fetch response: the node records and relation records
returned by one getLayerData call. -/
structure LayerData where
  nodes : List GraphNode
  relations : List Relation
deriving DecidableEq, Repr

/-- Lookup of layerData.data.nodesById by object id.  The remote store
keys each record by its own id, so the map is modelled as a search of the
record list by the id field. -/
def lookupNode (l : LayerData) (objectId : String) : Option GraphNode :=
  l.nodes.find? (fun n => n.id == objectId)

/-- The child relations of a parent in a layer response: the filter
`relation.fromId === parentNodeId && relation.relationTypeId === "child"`
shared by both getChildNodes variants in nodes.ts. -/
def childRelationsOf (l : LayerData) (parentNodeId : String) : List Relation :=
  l.relations.filter
    (fun r => r.fromId == parentNodeId && r.relationTypeId == "child")

/-- getChildNodes, second variant (nodes.ts lines 936-966): maps each
child relation toId through the hydrated node map with no filtering, so
a missing record becomes a none (undefined) entry in the result. -/
def getChildNodesPlain (layerData : LayerData) (parentNodeId : String) :
    List (Option GraphNode) :=
  (childRelationsOf layerData parentNodeId).map
    (fun r => lookupNode layerData r.toId)

/-- An annotated child returned by the first getChildNodes variant: the
node record plus the has-children / child-count exploration metadata. -/
structure AnnotatedChild where
  node : GraphNode
  hasChildren : Bool
  childCount : Nat
deriving DecidableEq, Repr

/-- The child-count computed from the second bulk layer fetch of the
annotated getChildNodes variant (nodes.ts lines 130-146): the number of
child relations whose fromId is the given child id, with the JavaScript
truthiness guards on fromId and toId. -/
def bulkChildCount (childLayerData : LayerData) (childNodeIds : List String)
    (childId : String) : Nat :=
  (childLayerData.relations.filter
    (fun r => r.relationTypeId == "child" && r.fromId != "" && r.toId != ""
      && childNodeIds.contains r.fromId && r.fromId == childId)).length

/-- getChildNodes, annotated variant (nodes.ts lines 92-170): filters the
child relations, maps toId through the node map, drops entries whose
record is missing or has a falsy id, and (when non-empty) annotates each
child from a second bulk layer fetch. -/
def getChildNodesAnnotated (layerData childLayerData : LayerData)
    (parentNodeId : String) : List AnnotatedChild :=
  let childNodes := (childRelationsOf layerData parentNodeId).filterMap
    (fun r =>
      match lookupNode layerData r.toId with
      | some n => if n.id ≠ "" then some n else none
      | none => none)
  if childNodes.length > 0 then
    let childNodeIds := childNodes.map (fun n => n.id)
    childNodes.map (fun n =>
      let c := bulkChildCount childLayerData childNodeIds n.id
      ⟨n, decide (c > 0), c⟩)
  else
    []

/-- One sub-operation of a transaction submitted to the remote /sync
endpoint, carrying the fields the claims inspect. -/
inductive Op where
  | addNode (nodeId : String)
  | addRelation (relationId fromId toId relationTypeId : String)
  | updateRelationList (relationId nodeId relatedNodeId : String)
  | updateRelation (relationId : String) (oldFromId newFromId : Option String)
      (oldToId newToId : String)
      (oldCanonicalRelationId newCanonicalRelationId : Option String)
  | deleteNode (nodeId : String)
deriving DecidableEq, Repr

def Op.isAddNode : Op → Bool
  | .addNode _ => true
  | _ => false

def Op.isAddRelation : Op → Bool
  | .addRelation _ _ _ _ => true
  | _ => false

def Op.isUpdateRelationList : Op → Bool
  | .updateRelationList _ _ _ => true
  | _ => false

def Op.isUpdateRelation : Op → Bool
  | .updateRelation _ _ _ _ _ _ _ => true
  | _ => false

def Op.relationTypeOf : Op → String
  | .addRelation _ _ _ t => t
  | _ => ""

/-- JavaScript truthiness of an optional string parameter: undefined and
the empty string are falsy. -/
def jsTruthy : Option String → Bool
  | none => false
  | some s => s ≠ ""

/-- Reference data carried by replacement-type content
(content.replacementNodeData in nodes.ts). -/
structure ReplacementNodeData where
  referenceNodeId : String
  referenceCanonicalRelationId : String
deriving DecidableEq, Repr

/-- The ordered updates array of the single transaction built by
NodeService.addNode (nodes.ts lines 336-592).  The freshly generated
uuids (new node, parent-child relation, label node, label-type relation)
are passed in as parameters; isReplacement is the test
`content.type === NodeContentType.Replacement && content.replacementNodeData`. -/
def addNodeUpdates (newNodeId parentChildRelationId relationLabelNodeId
    newRelationTypeId : String) (parentNodeId : Option String)
    (relationLabel : Option String) (isReplacement : Bool)
    (replacementNodeData : ReplacementNodeData) : List Op :=
  [Op.addNode newNodeId]
  ++ (match parentNodeId with
      | some p =>
        [Op.addRelation parentChildRelationId p newNodeId "child",
         Op.updateRelationList parentChildRelationId p newNodeId]
      | none => [])
  ++ (if jsTruthy relationLabel then
        [Op.addNode relationLabelNodeId,
         Op.addRelation newRelationTypeId parentChildRelationId
           relationLabelNodeId "__type__",
         Op.updateRelationList newRelationTypeId parentChildRelationId
           relationLabelNodeId,
         Op.updateRelation parentChildRelationId parentNodeId parentNodeId
           newNodeId newNodeId none (some newRelationTypeId)]
      else [])
  ++ (if isReplacement then
        [Op.updateRelation parentChildRelationId parentNodeId parentNodeId
           newNodeId replacementNodeData.referenceNodeId none
           (some replacementNodeData.referenceCanonicalRelationId),
         Op.updateRelationList parentChildRelationId
           (parentNodeId.getD "") replacementNodeData.referenceNodeId]
      else [])

/-- The relation-matching test of NodeService.moveNode (nodes.ts lines
609-621): fromId is the old parent, toId is the moved node, type child. -/
def moveMatch (oldParentId nodeId : String) (r : Relation) : Bool :=
  r.fromId == oldParentId && r.toId == nodeId && r.relationTypeId == "child"

/-- NodeService.moveNode (nodes.ts lines 600-717) up to the transaction
submission: scans the fetched relations for the (oldParent, node, child)
relation; when none exists it throws before building any update, so no
transaction is submitted; otherwise it returns the three-op transaction
(updateRelation rewriting fromId plus the two updateRelationList ops). -/
def moveNode (layerRelations : List Relation)
    (nodeId oldParentId newParentId : String) : Except String (List Op) :=
  match layerRelations.find? (moveMatch oldParentId nodeId) with
  | none =>
    .error ("No parent-child relationship found between "
      ++ oldParentId ++ " and " ++ nodeId)
  | some currentRelation =>
    .ok [Op.updateRelation currentRelation.id (some oldParentId)
           (some newParentId) nodeId nodeId
           currentRelation.canonicalRelationId
           currentRelation.canonicalRelationId,
         Op.updateRelationList currentRelation.id oldParentId nodeId,
         Op.updateRelationList currentRelation.id newParentId nodeId]

/-- Concrete layer response used to exercise the annotated getChildNodes
variant: one dangling child relation (target "x" missing) and one
hydrated child "y". -/
def exLayerC9 : LayerData :=
  ⟨[⟨"p", []⟩, ⟨"y", []⟩],
   [⟨"r1", "p", "x", "child", none⟩, ⟨"r2", "p", "y", "child", none⟩]⟩

/-- NodeService.deleteNode (nodes.ts lines 283-329): fetch-then-delete.
The result is the list of transactions submitted; a missing record
returns successfully with no transaction, otherwise one single-op
transaction is submitted. -/
def deleteNode (nodesById : String → Option GraphNode) (nodeId : String) :
    Except String (List (List Op)) :=
  match nodesById nodeId with
  | none => .ok []
  | some _ => .ok [[Op.deleteNode nodeId]]

/-- One nodeChildren map entry recorded by the previewContent loop
(mcp.ts lines 1360-1364 and 1399-1404): the breadth-limited child ids,
the true child count, and the has-more flag. -/
structure ChildEntry where
  limited : List String
  total : Nat
  hasMore : Bool
deriving DecidableEq, Repr

/-- The entry previewContent records for a node whose children were
fetched: children truncated to the breadth limit, total count, has-more
flag.  The abstract graph g gives, per node id, the ordered child-id
list returned by the getChildNodes read primitive. -/
def mkChildEntry (g : String → List String) (maxBreadth : Nat)
    (v : String) : ChildEntry :=
  ⟨(g v).take maxBreadth, (g v).length, decide ((g v).length > maxBreadth)⟩

/-- State leaving the previewContent level loop: the api-call counter,
the number of batched discovery/hydration rounds issued by the loop, the
accumulated nodeChildren entries, and the ids hydrated by the per-level
getLayerData calls. -/
structure LoopOut where
  apiCalls : Nat
  rounds : Nat
  entries : List (String × ChildEntry)
  hydrated : List String
deriving Repr

/-- The level-by-level loop of previewContent (mcp.ts lines 1374-1429).
fuel is targetDepth - depth + 1 for the loop variable depth, so the
initial call uses fuel = targetDepth; frontier is nodesByLevel[depth].
Each executed iteration consumes one api-budget unit and issues two
batched rounds: the children-discovery round over the whole frontier and
the data-hydration getLayerData round; the frontier for the next level
is seeded only below the target depth. -/
def levelLoop (g : String → List String) (maxBreadth apiBudget : Nat) :
    Nat → List String → Nat → Nat → List (String × ChildEntry) →
      List String → LoopOut
  | 0, _, apiCalls, rounds, entries, hydrated =>
    ⟨apiCalls, rounds, entries, hydrated⟩
  | fuel + 1, frontier, apiCalls, rounds, entries, hydrated =>
    if apiBudget ≤ apiCalls then ⟨apiCalls, rounds, entries, hydrated⟩
    else if frontier.isEmpty then ⟨apiCalls, rounds, entries, hydrated⟩
    else
      let fetched := frontier.map (fun v => (v, mkChildEntry g maxBreadth v))
      let nextLevelNodes :=
        (frontier.map (fun v => (g v).take maxBreadth)).flatten
      levelLoop g maxBreadth apiBudget fuel
        (if 1 ≤ fuel then nextLevelNodes else [])
        (apiCalls + 1) (rounds + 2) (entries ++ fetched)
        (hydrated ++ frontier)

/-- Result of the adaptive traversal phase of previewContent: the
adjusted strategy, the nodeChildren entries, the api calls used, the
loop rounds issued, and the hydrated node ids. -/
structure PreviewOut where
  finalStrategy : Strategy
  entries : List (String × ChildEntry)
  apiCalls : Nat
  loopRounds : Nat
  hydrated : List String
deriving Repr

/-- The finalStrategy of previewContent: the initial strategy adjusted
once from the sampled root fan-out (mcp.ts lines 1300-1349). -/
def previewFinalStrategy (g : String → List String)
    (rootNodeId : String) : Strategy :=
  adjustStrategy (g rootNodeId).length (getInitialStrategy rootNodeId)

/-- The level loop of previewContent as invoked after the root sample
(mcp.ts lines 1352-1429): the root entry records the truncated root
children, the frontier is nodesByLevel[1] (the limited root children),
one api call has been consumed by the sample, and the root has been
hydrated. -/
def previewLoop (g : String → List String) (rootNodeId : String)
    (apiBudget : Nat) : LoopOut :=
  levelLoop g (previewFinalStrategy g rootNodeId).maxBreadth apiBudget
    (previewFinalStrategy g rootNodeId).targetDepth
    ((g rootNodeId).take (previewFinalStrategy g rootNodeId).maxBreadth)
    1 0
    [(rootNodeId,
      mkChildEntry g (previewFinalStrategy g rootNodeId).maxBreadth rootNodeId)]
    [rootNodeId]

/-- The adaptive traversal of previewContent (mcp.ts lines 1276-1429):
sample the root (one api call, hydrating the root), adjust the strategy
once from the observed fan-out, record the truncated root children, then
run the budgeted level loop seeded with the limited root children. -/
def previewTraversal (g : String → List String) (rootNodeId : String)
    (apiBudget : Nat) : PreviewOut :=
  ⟨previewFinalStrategy g rootNodeId,
   (previewLoop g rootNodeId apiBudget).entries,
   (previewLoop g rootNodeId apiBudget).apiCalls,
   (previewLoop g rootNodeId apiBudget).rounds,
   (previewLoop g rootNodeId apiBudget).hydrated⟩

/-- roundsAffordableByBudget from the spec termination property: after
the root sample consumes one unit of the budget B, the loop can afford
B - 1 further iterations (each iteration is guarded by
apiCallsUsed < apiBudget and increments the counter once). -/
def roundsAffordableByBudget (apiBudget : Nat) : Nat := apiBudget - 1

/-- Lookup in the nodeChildren JavaScript Map: the last write wins. -/
def lookupEntry (entries : List (String × ChildEntry)) (v : String) :
    Option ChildEntry :=
  (entries.reverse.find? (fun p => p.1 == v)).map (fun p => p.2)

/-- JavaScript String.prototype.slice(0, n). -/
def jsSlice (s : String) (n : Nat) : String := ⟨s.toList.take n⟩

/-- The content preview of previewContent (mcp.ts lines 1446-1450):
at most 150 characters, with an ellipsis when truncated. -/
def contentPreviewOf (fullContent : String) : String :=
  if fullContent.length > 150 then jsSlice fullContent 150 ++ "..."
  else fullContent

/-- The replace(newline, space) cleanup applied to the preview text. -/
def newlineToSpace (s : String) : String :=
  ⟨s.toList.map (fun c => if c = '\n' then ' ' else c)⟩

/-- data?.content?.[0]?.value || "No content": the first content-block
value with JavaScript falsiness on the empty string. -/
def firstContentValue (data : Option GraphNode) : String :=
  match data with
  | some n =>
    match n.content with
    | b :: _ => if b.value ≠ "" then b.value else "No content"
    | [] => "No content"
  | none => "No content"

/-- A materialized node of the previewContent output tree (mcp.ts lines
1432-1464); the createdAt/updatedAt pass-through fields are omitted as
nothing inspects them. -/
structure CNode where
  id : String
  contentPreview : String
  fullContent : String
  depth : Nat
  totalChildren : Nat
  shownChildren : Nat
  hasMoreChildren : Bool
  children : List CNode

/-- Assembly of one materialized preview node from its lookups and its
already-built children. -/
def mkContentNode (nodeData : String → Option GraphNode) (nodeId : String)
    (depth : Nat) (childInfo : Option ChildEntry) (children : List CNode) :
    CNode :=
  let fullContent := firstContentValue (nodeData nodeId)
  ⟨nodeId, newlineToSpace (contentPreviewOf fullContent), fullContent, depth,
    (childInfo.map ChildEntry.total).getD 0,
    (childInfo.map (fun e => e.limited.length)).getD 0,
    (childInfo.map ChildEntry.hasMore).getD false,
    children⟩

/-- buildContentNode (mcp.ts lines 1432-1464).  fuel is
targetDepth - depth, so children are materialized exactly when the node
sits above the target depth (the JavaScript guard
depth < finalStrategy.targetDepth); a node at the target depth keeps its
counters but becomes a leaf. -/
def buildContentNode (entries : List (String × ChildEntry))
    (nodeData : String → Option GraphNode) :
    Nat → String → Nat → CNode
  | 0, nodeId, depth =>
    mkContentNode nodeData nodeId depth (lookupEntry entries nodeId) []
  | fuel + 1, nodeId, depth =>
    let childInfo := lookupEntry entries nodeId
    mkContentNode nodeData nodeId depth childInfo
      (match childInfo with
       | some e => e.limited.map
           (fun child => buildContentNode entries nodeData fuel child (depth + 1))
       | none => [])

/-- The nodeData map visible to buildContentNode: only ids hydrated
during the traversal have data; everything else reads as undefined. -/
def previewNodeData (nd : String → Option GraphNode)
    (hydrated : List String) (v : String) : Option GraphNode :=
  if hydrated.contains v then nd v else none

/-- The full previewContent pipeline: adaptive traversal followed by
tree materialization from the root at depth 0. -/
def previewContentTree (g : String → List String)
    (nd : String → Option GraphNode) (rootNodeId : String)
    (apiBudget : Nat) : CNode :=
  let out := previewTraversal g rootNodeId apiBudget
  buildContentNode out.entries (previewNodeData nd out.hydrated)
    out.finalStrategy.targetDepth rootNodeId 0

/-- Concrete graph exercising the previewContent pipeline: the global
root has five children, child "a" has one child "x", and "x" has 21
children - one more than the active breadth limit of 20. -/
def exC4g : String → List String := fun v =>
  if v = "global-root-id" then ["a", "b", "c", "d", "e"]
  else if v = "a" then ["x"]
  else if v = "x" then (List.range 21).map (fun i => "k" ++ toString i)
  else []

/-- A default materialized node, used only as the List.getD fallback when
walking a concrete output tree. -/
def defCNode : CNode := ⟨"", "", "", 0, 0, 0, false, []⟩

/-- The child ids bulkExpandForClaude records for one node (nodes.ts
lines 764-770): the relations of the layer response with matching fromId
and type child, capped at CLAUDE_MAX_BREADTH = 200, mapped to toId.  The
remote store is modelled by its full relation list; each per-level layer
response returns the relations touching the queried ids in store order,
and the per-node filter discards everything but that node's outgoing
child relations, so filtering the full list is equivalent. -/
def bulkChildIds (rels : List Relation) (v : String) : List String :=
  ((rels.filter
      (fun r => r.fromId == v && r.relationTypeId == "child")).take 200).map
    (fun r => r.toId)

/-- The BFS discovery state of bulkExpandForClaude: the allNodeIds set
(as a duplicate-free insertion-ordered list), the relationships map (as
an insertion-ordered association list, last write wins), and the
nextLevel accumulator. -/
structure BfsState where
  all : List String
  rel : List (String × List String)
  next : List String
deriving Repr

/-- The per-child discovery step (nodes.ts lines 774-779): a child id is
added to allNodeIds and nextLevel only if unseen and the total-node
ceiling MAX_TOTAL_NODES = 2000 has not been reached. -/
def addChild (acc : List String × List String) (childId : String) :
    List String × List String :=
  if ¬ acc.1.contains childId ∧ acc.1.length < 2000 then
    (acc.1 ++ [childId], acc.2 ++ [childId])
  else
    acc

/-- Processing of one node of the current BFS level (nodes.ts lines
763-780): record its capped child list in relationships and fold the
children through the discovery step. -/
def processNode (rels : List Relation) (st : BfsState) (v : String) :
    BfsState :=
  let childIds := bulkChildIds rels v
  let added := childIds.foldl addChild (st.all, st.next)
  ⟨added.1, st.rel ++ [(v, childIds)], added.2⟩

/-- The BFS discovery loop of bulkExpandForClaude (nodes.ts lines
755-783), fuel CLAUDE_MAX_DEPTH = 12: each level is processed while the
frontier is non-empty and the node ceiling has not been reached; the
nextLevel accumulator starts empty at every level. -/
def bfsLoop (rels : List Relation) : Nat → List String → BfsState → BfsState
  | 0, _, st => st
  | fuel + 1, currentLevel, st =>
    if currentLevel.isEmpty ∨ 2000 ≤ st.all.length then st
    else
      let st2 := currentLevel.foldl (processNode rels) ⟨st.all, st.rel, []⟩
      bfsLoop rels fuel st2.next st2

/-- Lookup in the relationships JavaScript Map: the last write wins. -/
def lookupRel (st : BfsState) (v : String) : Option (List String) :=
  (st.rel.reverse.find? (fun p => p.1 == v)).map (fun p => p.2)

/-- The final BFS state of bulkExpandForClaude from the given roots: the
roots seed allNodeIds, the relationships map initially marks each root
as childless, and the loop runs for up to 12 levels. -/
def bulkExpandFinal (rels : List Relation) (roots : List String) : BfsState :=
  bfsLoop rels 12 roots ⟨roots, roots.map (fun r => (r, [])), []⟩

/-- The loadedNodes map of bulkExpandForClaude (nodes.ts lines 786-795):
the final mega bulk layer fetch over every discovered id, keeping the
ids whose record exists. -/
def bulkLoadedNodes (rels : List Relation) (nodes : List GraphNode)
    (roots : List String) (v : String) : Option GraphNode :=
  if (bulkExpandFinal rels roots).all.contains v then
    nodes.find? (fun n => n.id == v)
  else
    none

/-- The relationships map of bulkExpandForClaude as seen by the caller. -/
def bulkRelationships (rels : List Relation) (roots : List String)
    (v : String) : Option (List String) :=
  lookupRel (bulkExpandFinal rels roots) v

/-- JavaScript String.prototype.trim, as a structural computation over
the character list: leading and trailing whitespace removed. -/
def jsTrim (s : String) : String :=
  ⟨(((s.toList.dropWhile Char.isWhitespace).reverse.dropWhile
      Char.isWhitespace).reverse)⟩

/-- JavaScript String.prototype.split(" "): split on single spaces,
keeping empty fragments. -/
def splitOnSpaceAux : List Char → List Char → List String
  | [], acc => [⟨acc.reverse⟩]
  | c :: t, acc =>
    if c = ' ' then ⟨acc.reverse⟩ :: splitOnSpaceAux t []
    else splitOnSpaceAux t (c :: acc)

def jsSplitOnSpace (s : String) : List String :=
  splitOnSpaceAux s.toList []

/-- The first-sentence prefix title.split(/[.!?]/)[0] of the mapStructure
title logic. -/
def firstSentenceOf (s : String) : String :=
  ⟨s.toList.takeWhile (fun c => c ≠ '.' ∧ c ≠ '!' ∧ c ≠ '?')⟩

/-- The word-fitting loop of the mapStructure title logic (mcp.ts lines
1133-1138): append whole words while the candidate stays within 35
characters, stopping at the first overflow. -/
def wordFitLoop : List String → String → String
  | [], title => title
  | w :: ws, title =>
    if (title ++ " " ++ w).length > 35 then title
    else wordFitLoop ws (if title ≠ "" then title ++ " " ++ w else w)

/-- The smart title truncation of buildFileTree (mcp.ts lines 1123-1141):
first sentence when at most 40 characters, otherwise fitted words capped
at 35 characters, with the slice and Untitled fallbacks, newlines
replaced by spaces. -/
def makeTitle (nodeData : GraphNode) : String :=
  let fullText := firstContentValue (some nodeData)
  let title0 := jsTrim fullText
  let firstSentence := firstSentenceOf title0
  let title1 :=
    if firstSentence ≠ "" ∧ firstSentence.length ≤ 40 then firstSentence
    else
      let fitted := wordFitLoop (jsSplitOnSpace title0) ""
      if fitted.length = 0 then jsSlice fullText 35 else fitted
  let title2 := if title1 ≠ "" then title1 else "Untitled"
  newlineToSpace title2

/-- A node of the mapStructure file tree (mcp.ts lines 1071-1151). -/
structure FTree where
  id : String
  title : String
  depth : Nat
  childCount : Nat
  hasChildren : Bool
  children : List FTree

/-- The cycle sentinel returned by buildFileTree when an id on the
current ancestor path is revisited. -/
def cycleNode (nodeId : String) (depth : Nat) : FTree :=
  ⟨nodeId, "[CYCLE DETECTED]", depth, 0, false, []⟩

/-- The depth sentinel returned by buildFileTree past the hard depth
limit. -/
def maxDepthNode (nodeId : String) (depth : Nat) : FTree :=
  ⟨nodeId, "[MAX DEPTH REACHED]", depth, 0, false, []⟩

/-- buildFileTree (mcp.ts lines 1071-1151): cycle check against the
copy-on-descend visited set, hard depth limit 15, null for unloaded
nodes, children capped at 100 and filtered of nulls.  fuel maintains
fuel = 16 - depth, so the fuel-0 case is exactly the depth-16 call,
where the JavaScript returns a sentinel on both branches (cycle first,
else depth > 15). -/
def buildFileTree (loadedNodes : String → Option GraphNode)
    (relationships : String → Option (List String)) :
    Nat → String → Nat → List String → Option FTree
  | 0, nodeId, depth, visited =>
    if visited.contains nodeId then some (cycleNode nodeId depth)
    else some (maxDepthNode nodeId depth)
  | fuel + 1, nodeId, depth, visited =>
    if visited.contains nodeId then some (cycleNode nodeId depth)
    else if 15 < depth then some (maxDepthNode nodeId depth)
    else
      match loadedNodes nodeId with
      | none => none
      | some nodeData =>
        let childIds := (relationships nodeId).getD []
        let newVisited := nodeId :: visited
        let children := (childIds.take 100).filterMap
          (fun childId =>
            buildFileTree loadedNodes relationships fuel childId
              (depth + 1) newVisited)
        some ⟨nodeId, makeTitle nodeData, depth, childIds.length,
          decide (childIds.length > 0), children⟩

/-- The mapStructure pipeline (mcp.ts lines 1066-1187):
bulkExpandForClaude from the root followed by buildFileTree from the
root at depth 0 with an empty visited set. -/
def mapStructureTree (rels : List Relation) (nodes : List GraphNode)
    (rootNodeId : String) : Option FTree :=
  buildFileTree (bulkLoadedNodes rels nodes [rootNodeId])
    (bulkRelationships rels [rootNodeId]) 16 rootNodeId 0 []

/-- Concrete store with a cycle A -> B -> A in which the A -> B edge is
the 101st child relation of A: the first 100 relations all point from A
to the same node c. -/
def exC2rels : List Relation :=
  ((List.range 100).map
    (fun i => ⟨"f" ++ toString i, "A", "c", "child", none⟩))
  ++ [⟨"rAB", "A", "B", "child", none⟩, ⟨"rBA", "B", "A", "child", none⟩]

/-- Node records for the cyclic store: A, B and c all exist. -/
def exC2nodes : List GraphNode :=
  [⟨"A", [⟨"text", "a"⟩]⟩, ⟨"B", [⟨"text", "b"⟩]⟩, ⟨"c", [⟨"text", "t"⟩]⟩]

/-- Decidable check that a tree of depth at most one has no cycle
sentinel anywhere: the root title differs from the sentinel and every
child is a sentinel-free leaf. -/
def noCycleSentinelShallow (t : FTree) : Bool :=
  t.title != "[CYCLE DETECTED]"
    && t.children.all
        (fun c => c.title != "[CYCLE DETECTED]" && c.children.isEmpty)

/-- The hexadecimal digit characters emitted by encodeURIComponent
(uppercase). -/
def hexDigitChar (k : Nat) : Char :=
  if k < 10 then Char.ofNat (48 + k) else Char.ofNat (55 + k)

/-- The value of a hexadecimal digit accepted by decodeURIComponent
(either case). -/
def hexVal (c : Char) : Option Nat :=
  if 48 ≤ c.toNat ∧ c.toNat ≤ 57 then some (c.toNat - 48)
  else if 65 ≤ c.toNat ∧ c.toNat ≤ 70 then some (c.toNat - 55)
  else if 97 ≤ c.toNat ∧ c.toNat ≤ 102 then some (c.toNat - 87)
  else none

/-- The UTF-8 byte sequence of a Unicode code point, as produced by
encodeURIComponent for characters outside its unreserved set. -/
def utf8Bytes (n : Nat) : List Nat :=
  if n < 0x80 then [n]
  else if n < 0x800 then [0xC0 + n / 64, 0x80 + n % 64]
  else if n < 0x10000 then
    [0xE0 + n / 4096, 0x80 + (n / 64) % 64, 0x80 + n % 64]
  else
    [0xF0 + n / 262144, 0x80 + (n / 4096) % 64, 0x80 + (n / 64) % 64,
     0x80 + n % 64]

/-- The unreserved set of encodeURIComponent: ASCII letters, digits and
- _ . ! ~ * quote ( ), by code point. -/
def uriUnreservedNat (n : Nat) : Bool :=
  (65 ≤ n && n ≤ 90) || (97 ≤ n && n ≤ 122) || (48 ≤ n && n ≤ 57)
    || n = 45 || n = 95 || n = 46 || n = 33 || n = 126 || n = 42
    || n = 39 || n = 40 || n = 41

/-- Percent-encoding of a single character: unreserved characters pass
through, everything else becomes percent-escaped UTF-8 bytes with
uppercase hexadecimal digits. -/
def encodeChar (c : Char) : List Char :=
  if uriUnreservedNat c.toNat then [c]
  else
    ((utf8Bytes c.toNat).map
      (fun b => ['%', hexDigitChar (b / 16), hexDigitChar (b % 16)])).flatten

/-- JavaScript encodeURIComponent, used by getNodeUrl (nodes.ts line
831) on the user and node ids. -/
def encodeURIComponent (s : String) : String :=
  ⟨(s.toList.map encodeChar).flatten⟩

/-- A token of the percent-decoding scan: an unescaped character or a
percent-escaped byte. -/
inductive UriToken where
  | chr (c : Char)
  | byt (b : Nat)
deriving DecidableEq, Repr

/-- The token image of one encoded character: a character token for an
unreserved character, byte tokens of its UTF-8 encoding otherwise. -/
def tokensOfChar (c : Char) : List UriToken :=
  if uriUnreservedNat c.toNat then [UriToken.chr c]
  else (utf8Bytes c.toNat).map UriToken.byt

/-- The token image of an encoded string. -/
def tokensOfList (cs : List Char) : List UriToken :=
  (cs.map tokensOfChar).flatten

/-- The percent-escape scan of decodeURIComponent: each %XX becomes a
byte token, any other character becomes a character token, and a percent
sign not followed by two hexadecimal digits is a URIError. -/
def uriTokens : List Char → Option (List UriToken)
  | [] => some []
  | c :: rest =>
    if c = '%' then
      match rest with
      | h1 :: h2 :: rest2 =>
        match hexVal h1, hexVal h2 with
        | some a, some b =>
          (uriTokens rest2).map (fun ts => .byt (16 * a + b) :: ts)
        | _, _ => none
      | _ => none
    else
      (uriTokens rest).map (fun ts => .chr c :: ts)

/-- One step of the strict UTF-8 reassembly of decodeURIComponent:
consume one character token or one well-formed UTF-8 byte sequence
(rejecting overlong encodings, surrogates and out-of-range points) and
return the decoded character with the remaining tokens. -/
def utf8Step : List UriToken → Option (Char × List UriToken)
  | [] => none
  | .chr c :: rest => some (c, rest)
  | .byt b0 :: rest =>
    if b0 < 0x80 then some (Char.ofNat b0, rest)
    else if 0xC2 ≤ b0 ∧ b0 < 0xE0 then
      match rest with
      | .byt b1 :: rest2 =>
        if 0x80 ≤ b1 ∧ b1 < 0xC0 then
          some (Char.ofNat ((b0 - 0xC0) * 64 + (b1 - 0x80)), rest2)
        else none
      | _ => none
    else if 0xE0 ≤ b0 ∧ b0 < 0xF0 then
      match rest with
      | .byt b1 :: rest2 =>
        match rest2 with
        | .byt b2 :: rest3 =>
          if (0x80 ≤ b1 ∧ b1 < 0xC0) ∧ (0x80 ≤ b2 ∧ b2 < 0xC0) then
            if 0x800 ≤ (b0 - 0xE0) * 4096 + (b1 - 0x80) * 64 + (b2 - 0x80)
                ∧ ((b0 - 0xE0) * 4096 + (b1 - 0x80) * 64 + (b2 - 0x80)
                      < 0xD800
                  ∨ 0xE000
                      ≤ (b0 - 0xE0) * 4096 + (b1 - 0x80) * 64 + (b2 - 0x80))
              then
              some (Char.ofNat
                ((b0 - 0xE0) * 4096 + (b1 - 0x80) * 64 + (b2 - 0x80)), rest3)
            else none
          else none
        | _ => none
      | _ => none
    else if 0xF0 ≤ b0 ∧ b0 < 0xF5 then
      match rest with
      | .byt b1 :: rest2 =>
        match rest2 with
        | .byt b2 :: rest3 =>
          match rest3 with
          | .byt b3 :: rest4 =>
            if (0x80 ≤ b1 ∧ b1 < 0xC0) ∧ (0x80 ≤ b2 ∧ b2 < 0xC0)
                ∧ (0x80 ≤ b3 ∧ b3 < 0xC0) then
              if 0x10000 ≤ (b0 - 0xF0) * 262144 + (b1 - 0x80) * 4096
                    + (b2 - 0x80) * 64 + (b3 - 0x80)
                  ∧ (b0 - 0xF0) * 262144 + (b1 - 0x80) * 4096
                      + (b2 - 0x80) * 64 + (b3 - 0x80) < 0x110000 then
                some (Char.ofNat ((b0 - 0xF0) * 262144 + (b1 - 0x80) * 4096
                  + (b2 - 0x80) * 64 + (b3 - 0x80)), rest4)
              else none
            else none
          | _ => none
        | _ => none
      | _ => none
    else none

/-- The reassembly loop, driven by a token-count fuel (each step consumes
at least one token, so fuel = length suffices; the fuel-exhausted case
with tokens left is unreachable from utf8Decode). -/
def utf8DecodeAux : Nat → List UriToken → Option (List Char)
  | _, [] => some []
  | 0, _ :: _ => none
  | fuel + 1, t :: rest =>
    match utf8Step (t :: rest) with
    | some (c, rest2) => (utf8DecodeAux fuel rest2).map (fun cs => c :: cs)
    | none => none

/-- Strict UTF-8 reassembly of the byte tokens of decodeURIComponent:
well-formed sequences become characters, anything malformed is a
URIError. -/
def utf8Decode (ts : List UriToken) : Option (List Char) :=
  utf8DecodeAux ts.length ts

/-- JavaScript decodeURIComponent: percent scan followed by UTF-8
reassembly; none models a thrown URIError. -/
def decodeURIComponentJs (s : String) : Option String :=
  (uriTokens s.toList).bind (fun ts => (utf8Decode ts).map (fun cs => ⟨cs⟩))

/-- The replace(/%7C/gi, pipe) cleanup of parseNodeIdFromUrl (nodes.ts
line 856): every case-insensitive literal %7C becomes a pipe, scanning
left to right without overlap. -/
def replace7C : List Char → List Char
  | [] => []
  | [c] => [c]
  | [c, c1] => [c, c1]
  | c :: c1 :: c2 :: rest =>
    if c = '%' ∧ c1 = '7' ∧ (c2 = 'C' ∨ c2 = 'c') then '|' :: replace7C rest
    else c :: replace7C (c1 :: c2 :: rest)

/-- Scan for a case-insensitive literal %7C, characterizing the inputs
on which replace7C is the identity. -/
def contains7C : List Char → Bool
  | [] => false
  | [_] => false
  | [_, _] => false
  | c :: c1 :: c2 :: rest =>
    (c = '%' && c1 = '7' && (c2 = 'C' || c2 = 'c'))
      || contains7C (c1 :: c2 :: rest)

/-- The regex match of parseNodeIdFromUrl (nodes.ts line 842):
/\/node-([^\/]+)$/ matches at the leftmost slash followed by node- whose
remaining suffix is non-empty and slash-free, capturing that suffix. -/
def findNodeCapture : List Char → Option (List Char)
  | [] => none
  | c :: rest =>
    if c = '/' ∧ rest.take 5 = "node-".toList ∧ rest.drop 5 ≠ []
        ∧ ¬ ((rest.drop 5).contains '/' = true) then
      some (rest.drop 5)
    else
      findNodeCapture rest

/-- NodeService.getNodeUrl (nodes.ts lines 827-832): the unknown-user
fallback when no current user id is set, otherwise the full node URL
with the user id and node id percent-encoded into the path. -/
def getNodeUrl (baseNodeUrl currentUserId nodeId : String) : String :=
  if currentUserId = "" then
    baseNodeUrl
      ++ "g/all/global-root-to-users/all/users-to-user-relation-id-unknown/user-root-id-unknown"
  else
    baseNodeUrl
      ++ "g/all/global-root-to-users/all/users-to-user-relation-id-"
      ++ encodeURIComponent currentUserId
      ++ "/user-root-id-"
      ++ encodeURIComponent currentUserId
      ++ "/node-"
      ++ encodeURIComponent nodeId

/-- NodeService.parseNodeIdFromUrl (nodes.ts lines 840-863): extract the
trailing node- segment, decode it (falling back to the raw capture when
decoding throws), rewrite any remaining literal %7C to a pipe, and fail
with the descriptive error when the URL has no node segment. -/
def parseNodeIdFromUrl (url : String) : Except String String :=
  match findNodeCapture url.toList with
  | some cap =>
    let decoded :=
      match decodeURIComponentJs ⟨cap⟩ with
      | some d => d
      | none => (⟨cap⟩ : String)
    .ok ⟨replace7C decoded.toList⟩
  | none => .error "Invalid node URL format or nodeId not found in URL."

end MewMcp

namespace MewMcp

/-- C3: the one-time strategy adjustment computes exactly the case split
described by the spec, for every fan-out and every initial strategy
produced by strategy selection. -/
theorem adjustStrategy_matches_spec (fanout : Nat) (rootId : String) :
    adjustStrategy fanout (getInitialStrategy rootId)
      = adjustStrategySpec fanout (getInitialStrategy rootId) := by
  rfl

/-- C5 counterexample: adjustStrategy is not idempotent.  With fan-out 0
and the global-root initial strategy (targetDepth 2), one application
gives targetDepth 3 but a second application gives targetDepth 4. -/
theorem adjustStrategy_not_idempotent :
    adjustStrategy 0 (adjustStrategy 0 (getInitialStrategy "global-root-id"))
      ≠ adjustStrategy 0 (getInitialStrategy "global-root-id") := by
  decide

theorem adjustStrategy_idem_aux (fanout : Nat) (s : Strategy)
    (h : 5 ≤ fanout ∨ 3 ≤ s.targetDepth) :
    adjustStrategy fanout (adjustStrategy fanout s) = adjustStrategy fanout s := by
  obtain ⟨p, mb, td⟩ := s
  simp only [adjustStrategy]
  by_cases h30 : fanout > 30
  · simp only [if_pos h30]
    simp [Strategy.mk.injEq]
  · simp only [if_neg h30]
    by_cases h5 : fanout < 5
    · have h3 : 3 ≤ td := by
        simp only [Strategy.targetDepth] at h
        omega
      simp only [if_pos h5, if_neg h30]
      simp [Strategy.mk.injEq]
      omega
    · simp only [if_neg h5]

/-- C5 (amended): adjustStrategy is idempotent on every initial strategy
whenever the fan-out is at least 5, or the initial targetDepth is at
least 3 (the balanced and depth strategies); only the breadth strategy
(targetDepth 2) with fan-out below 5 gains another depth level on a
second application. -/
theorem adjustStrategy_idempotent_of (fanout : Nat) (rootId : String)
    (h : 5 ≤ fanout ∨ 3 ≤ (getInitialStrategy rootId).targetDepth) :
    adjustStrategy fanout (adjustStrategy fanout (getInitialStrategy rootId))
      = adjustStrategy fanout (getInitialStrategy rootId) :=
  adjustStrategy_idem_aux fanout (getInitialStrategy rootId) h

/-- C5 witness: the amended idempotence theorem applied at fan-out 10 and
an arbitrary node root. -/
theorem adjustStrategy_idempotent_of_witness :
    (5 ≤ 10 ∨ 3 ≤ (getInitialStrategy "some-node").targetDepth)
      ∧ adjustStrategy 10 (adjustStrategy 10 (getInitialStrategy "some-node"))
          = adjustStrategy 10 (getInitialStrategy "some-node") :=
  ⟨Or.inl (by decide), adjustStrategy_idempotent_of 10 "some-node" (Or.inl (by decide))⟩

/-- C6: a create-node call with a parent and a non-empty relation label
(and non-replacement content) builds a single transaction of exactly 7
ordered operations: 2 addNode, the child and type addRelation, 2
updateRelationList, and 1 updateRelation rewriting the child relation
canonicalRelationId to the new type relation id. -/
theorem addNode_label_transaction_ops
    (newNodeId parentChildRelationId relationLabelNodeId newRelationTypeId
      p label : String) (hlabel : label ≠ "")
    (replacementNodeData : ReplacementNodeData) :
    (addNodeUpdates newNodeId parentChildRelationId relationLabelNodeId
        newRelationTypeId (some p) (some label) false
        replacementNodeData).length = 7
      ∧ ((addNodeUpdates newNodeId parentChildRelationId relationLabelNodeId
          newRelationTypeId (some p) (some label) false
          replacementNodeData).filter Op.isAddNode).length = 2
      ∧ ((addNodeUpdates newNodeId parentChildRelationId relationLabelNodeId
          newRelationTypeId (some p) (some label) false
          replacementNodeData).filter Op.isAddRelation).map Op.relationTypeOf
          = ["child", "__type__"]
      ∧ ((addNodeUpdates newNodeId parentChildRelationId relationLabelNodeId
          newRelationTypeId (some p) (some label) false
          replacementNodeData).filter Op.isUpdateRelationList).length = 2
      ∧ (addNodeUpdates newNodeId parentChildRelationId relationLabelNodeId
          newRelationTypeId (some p) (some label) false
          replacementNodeData).filter Op.isUpdateRelation
          = [Op.updateRelation parentChildRelationId (some p) (some p)
              newNodeId newNodeId none (some newRelationTypeId)] := by
  have hl : jsTruthy (some label) = true := by
    simp [jsTruthy, hlabel]
  refine ⟨?_, ?_, ?_, ?_, ?_⟩ <;>
    simp [addNodeUpdates, hl, Op.isAddNode, Op.isAddRelation,
      Op.isUpdateRelationList, Op.isUpdateRelation, Op.relationTypeOf]

/-- C6 witness: the operation-count theorem applied at concrete ids with
the label "evidence". -/
theorem addNode_label_transaction_ops_witness :
    ("evidence" ≠ "")
      ∧ (addNodeUpdates "n1" "rel1" "ln1" "rt1" (some "P") (some "evidence")
          false ⟨"", ""⟩).length = 7 :=
  ⟨by decide,
    (addNode_label_transaction_ops "n1" "rel1" "ln1" "rt1" "P" "evidence"
      (by decide) ⟨"", ""⟩).1⟩

/-- C7: when no (oldParent, node, child) relation exists in the fetched
layer data, moveNode fails with the descriptive error and no transaction
is built or submitted (the throw happens before any update is created). -/
theorem moveNode_missing_relation_fails
    (layerRelations : List Relation) (nodeId oldParentId newParentId : String)
    (h : ∀ r ∈ layerRelations, moveMatch oldParentId nodeId r = false) :
    moveNode layerRelations nodeId oldParentId newParentId
      = .error ("No parent-child relationship found between "
          ++ oldParentId ++ " and " ++ nodeId) := by
  have hfind : layerRelations.find? (moveMatch oldParentId nodeId) = none := by
    rw [List.find?_eq_none]
    intro r hr
    simp [h r hr]
  simp [moveNode, hfind]

/-- C7 witness: moving "X" from "P1" to "P2" when the only fetched
relation is a child edge from a different parent. -/
theorem moveNode_missing_relation_fails_witness :
    (∀ r ∈ [Relation.mk "r9" "Q" "X" "child" none],
        moveMatch "P1" "X" r = false)
      ∧ moveNode [Relation.mk "r9" "Q" "X" "child" none] "X" "P1" "P2"
          = .error "No parent-child relationship found between P1 and X" :=
  ⟨by decide,
    moveNode_missing_relation_fails [Relation.mk "r9" "Q" "X" "child" none]
      "X" "P1" "P2" (by decide)⟩

/-- C8: deleting a node whose id is absent from the fetched layer data
returns success and submits no transaction - an idempotent no-op. -/
theorem deleteNode_missing_is_silent_noop
    (nodesById : String → Option GraphNode) (nodeId : String)
    (h : nodesById nodeId = none) :
    deleteNode nodesById nodeId = .ok [] := by
  simp [deleteNode, h]

/-- C8 witness: deleting "ghost" against an empty store. -/
theorem deleteNode_missing_is_silent_noop_witness :
    ((fun _ : String => (none : Option GraphNode)) "ghost" = none)
      ∧ deleteNode (fun _ => none) "ghost" = .ok [] :=
  ⟨rfl, deleteNode_missing_is_silent_noop (fun _ => none) "ghost" rfl⟩

/-- C9 counterexample: the second getChildNodes variant (nodes.ts lines
936-966) does not drop dangling edges.  With one child relation whose
target record is missing from the layer response, its result is a
one-element list containing an undefined entry. -/
theorem getChildNodesPlain_surfaces_dangling :
    getChildNodesPlain
      ⟨[⟨"p", []⟩], [⟨"r1", "p", "x", "child", none⟩]⟩ "p" = [none] := by
  decide

/-- C9 (amended): the annotated getChildNodes variant (nodes.ts lines
92-170) returns only children backed by a hydrated node record - every
entry of its result has a record present in the layer response, so
dangling child relations are dropped and never surfaced. -/
theorem getChildNodesAnnotated_children_backed
    (layerData childLayerData : LayerData) (parentNodeId : String)
    (c : AnnotatedChild)
    (hc : c ∈ getChildNodesAnnotated layerData childLayerData parentNodeId) :
    (lookupNode layerData c.node.id).isSome := by
  unfold getChildNodesAnnotated at hc
  simp only at hc
  split at hc
  · obtain ⟨n, hn, hcn⟩ := List.mem_map.mp hc
    obtain ⟨r, _, hr⟩ := List.mem_filterMap.mp hn
    have hnode : c.node = n := by
      cases hcn
      rfl
    rcases hlook : lookupNode layerData r.toId with _ | n'
    · rw [hlook] at hr
      simp at hr
    · rw [hlook] at hr
      have hn'n : n' = n := by
        by_cases hid : n'.id ≠ ""
        · simpa [hid] using hr
        · simp [hid] at hr
      have hmem : n ∈ layerData.nodes := by
        subst hn'n
        exact List.mem_of_find?_eq_some hlook
      rw [hnode]
      unfold lookupNode
      rw [List.find?_isSome]
      exact ⟨n, hmem, by simp⟩
  · simp at hc

/-- C9 witness: the backed-children theorem applied to a layer response
with one dangling and one hydrated child; membership of the hydrated
child in the result is discharged by evaluation. -/
theorem levelLoop_rounds_le (g : String → List String)
    (maxBreadth apiBudget : Nat) :
    ∀ (fuel : Nat) (frontier : List String) (apiCalls rounds : Nat)
      (entries : List (String × ChildEntry)) (hydrated : List String),
      (levelLoop g maxBreadth apiBudget fuel frontier apiCalls rounds
          entries hydrated).rounds
        ≤ rounds + 2 * min fuel (apiBudget - apiCalls) := by
  intro fuel
  induction fuel with
  | zero =>
    intro frontier apiCalls rounds entries hydrated
    simp [levelLoop]
  | succ fuel ih =>
    intro frontier apiCalls rounds entries hydrated
    simp only [levelLoop]
    by_cases hb : apiBudget ≤ apiCalls
    · simp only [if_pos hb, LoopOut.rounds]
      omega
    · simp only [if_neg hb]
      by_cases hf : frontier.isEmpty
      · simp only [if_pos hf, LoopOut.rounds]
        omega
      · simp only [if_neg hf]
        refine le_trans (ih _ (apiCalls + 1) (rounds + 2) _ _) ?_
        have hlt : apiCalls < apiBudget := Nat.lt_of_not_le hb
        omega

/-- C1: for every graph (cyclic or not) and every finite budget B at
least 1, the previewContent adaptive traversal terminates - its level
loop is the total function levelLoop - and the loop issues at most
2 * min(targetDepth, roundsAffordableByBudget(B)) batched
discovery/hydration rounds, where roundsAffordableByBudget(B) = B - 1
accounts for the budget unit consumed by the root sample. -/
theorem previewTraversal_rounds_bounded (g : String → List String)
    (rootNodeId : String) (apiBudget : Nat) (h : 1 ≤ apiBudget) :
    (previewTraversal g rootNodeId apiBudget).loopRounds
      ≤ 2 * min (previewTraversal g rootNodeId apiBudget).finalStrategy.targetDepth
          (roundsAffordableByBudget apiBudget) := by
  have hb := levelLoop_rounds_le g
    (previewFinalStrategy g rootNodeId).maxBreadth apiBudget
    (previewFinalStrategy g rootNodeId).targetDepth
    ((g rootNodeId).take (previewFinalStrategy g rootNodeId).maxBreadth)
    1 0
    [(rootNodeId,
      mkChildEntry g (previewFinalStrategy g rootNodeId).maxBreadth rootNodeId)]
    [rootNodeId]
  simpa [previewTraversal, previewLoop, roundsAffordableByBudget] using hb

/-- C1 witness: the rounds bound applied to the concrete graph exC4g
with the default budget 8. -/
theorem previewTraversal_rounds_bounded_witness :
    (1 ≤ 8)
      ∧ (previewTraversal exC4g "global-root-id" 8).loopRounds
          ≤ 2 * min (previewTraversal exC4g "global-root-id"
                8).finalStrategy.targetDepth
              (roundsAffordableByBudget 8) :=
  ⟨by decide,
    previewTraversal_rounds_bounded exC4g "global-root-id" 8 (by decide)⟩

theorem levelLoop_entries_shape (g : String → List String)
    (maxBreadth apiBudget : Nat) :
    ∀ (fuel : Nat) (frontier : List String) (apiCalls rounds : Nat)
      (entries : List (String × ChildEntry)) (hydrated : List String),
      (∀ p ∈ entries, p.2 = mkChildEntry g maxBreadth p.1) →
      ∀ p ∈ (levelLoop g maxBreadth apiBudget fuel frontier apiCalls rounds
          entries hydrated).entries, p.2 = mkChildEntry g maxBreadth p.1 := by
  intro fuel
  induction fuel with
  | zero =>
    intro frontier apiCalls rounds entries hydrated hgood p hp
    exact hgood p hp
  | succ fuel ih =>
    intro frontier apiCalls rounds entries hydrated hgood p hp
    simp only [levelLoop] at hp
    by_cases hb : apiBudget ≤ apiCalls
    · rw [if_pos hb] at hp
      exact hgood p hp
    · rw [if_neg hb] at hp
      by_cases hf : frontier.isEmpty
      · rw [if_pos hf] at hp
        exact hgood p hp
      · rw [if_neg hf] at hp
        refine ih _ (apiCalls + 1) (rounds + 2) _ _ ?_ p hp
        intro q hq
        rcases List.mem_append.mp hq with hql | hqr
        · exact hgood q hql
        · obtain ⟨v, _, hv⟩ := List.mem_map.mp hqr
          rw [← hv]

theorem lookupEntry_eq_some (entries : List (String × ChildEntry))
    (v : String) (e : ChildEntry) (h : lookupEntry entries v = some e) :
    ∃ p, p ∈ entries ∧ p.1 = v ∧ p.2 = e := by
  unfold lookupEntry at h
  cases hf : entries.reverse.find? (fun p => p.1 == v) with
  | none =>
    rw [hf] at h
    simp at h
  | some p =>
    rw [hf] at h
    simp only [Option.map] at h
    have hp := List.find?_some hf
    have hm := List.mem_of_find?_eq_some hf
    exact ⟨p, List.mem_reverse.mp hm, by simpa using hp,
      by simpa using h⟩

/-- Every nodeChildren entry recorded by the previewContent traversal has
the truncated-children shape produced by the read primitive. -/
theorem previewTraversal_entry_shape (g : String → List String)
    (rootNodeId : String) (apiBudget : Nat) (v : String) (e : ChildEntry)
    (he : lookupEntry (previewTraversal g rootNodeId apiBudget).entries v
        = some e) :
    e = mkChildEntry g
      (previewTraversal g rootNodeId apiBudget).finalStrategy.maxBreadth v := by
  obtain ⟨p, hmem, hpv, hpe⟩ :=
    lookupEntry_eq_some _ v e he
  have hgood := levelLoop_entries_shape g
    (previewFinalStrategy g rootNodeId).maxBreadth apiBudget
    (previewFinalStrategy g rootNodeId).targetDepth
    ((g rootNodeId).take (previewFinalStrategy g rootNodeId).maxBreadth)
    1 0
    [(rootNodeId,
      mkChildEntry g (previewFinalStrategy g rootNodeId).maxBreadth rootNodeId)]
    [rootNodeId]
    (by
      intro q hq
      simp only [List.mem_singleton] at hq
      rw [hq])
    p hmem
  rw [← hpe, hgood, hpv]
  rfl

theorem mkChildEntry_total (g : String → List String) (mb : Nat) (v : String) :
    (mkChildEntry g mb v).total = (g v).length := rfl

theorem mkChildEntry_limited (g : String → List String) (mb : Nat) (v : String) :
    (mkChildEntry g mb v).limited = (g v).take mb := rfl

theorem mkChildEntry_hasMore (g : String → List String) (mb : Nat) (v : String) :
    (mkChildEntry g mb v).hasMore = decide ((g v).length > mb) := rfl

theorem buildContentNode_id (entries : List (String × ChildEntry))
    (nodeData : String → Option GraphNode) (fuel : Nat) (v : String)
    (depth : Nat) :
    (buildContentNode entries nodeData fuel v depth).id = v := by
  cases fuel <;> rfl

/-- C4 counterexample: in the concrete preview of exC4g (budget 8), the
children of node "x" were fetched (its entry reports shownChildren 20,
totalChildren 21, hasMoreChildren true with breadth limit 20 < 21), yet
"x" sits at the target depth of the materialized tree, so zero of its 20
truncated children appear in the output rather than exactly 20. -/
theorem previewContent_truncation_counterexample :
    (previewTraversal exC4g "global-root-id" 8).finalStrategy.maxBreadth = 20
      ∧ (lookupEntry (previewTraversal exC4g "global-root-id" 8).entries
          "x").isSome = true
      ∧ (((previewContentTree exC4g (fun _ => none) "global-root-id"
            8).children.getD 0 defCNode).children.getD 0 defCNode).id = "x"
      ∧ (((previewContentTree exC4g (fun _ => none) "global-root-id"
            8).children.getD 0 defCNode).children.getD 0
              defCNode).shownChildren = 20
      ∧ (((previewContentTree exC4g (fun _ => none) "global-root-id"
            8).children.getD 0 defCNode).children.getD 0
              defCNode).totalChildren = 21
      ∧ (((previewContentTree exC4g (fun _ => none) "global-root-id"
            8).children.getD 0 defCNode).children.getD 0
              defCNode).hasMoreChildren = true
      ∧ (((previewContentTree exC4g (fun _ => none) "global-root-id"
            8).children.getD 0 defCNode).children.getD 0
              defCNode).children.length = 0 := by
  decide

/-- C4 (amended): for every node whose children were fetched during the
previewContent traversal, with N = total children and active maxBreadth
M < N, the recorded entry keeps exactly the first M children in read
order and reports shownChildren = M, totalChildren = N,
hasMoreChildren = true; every materialization of the node above the
target depth (fuel > 0) renders exactly those M children in that order,
while a materialization at the target depth (fuel 0) reports the same
counters but renders no children. -/
theorem previewContent_breadth_truncation (g : String → List String)
    (rootNodeId : String) (apiBudget : Nat) (v : String) (e : ChildEntry)
    (he : lookupEntry (previewTraversal g rootNodeId apiBudget).entries v
        = some e)
    (hM : (previewTraversal g rootNodeId apiBudget).finalStrategy.maxBreadth
        < e.total) :
    e.limited = (g v).take
        (previewTraversal g rootNodeId apiBudget).finalStrategy.maxBreadth
      ∧ e.limited.length
          = (previewTraversal g rootNodeId apiBudget).finalStrategy.maxBreadth
      ∧ e.total = (g v).length
      ∧ e.hasMore = true
      ∧ (∀ (nodeData : String → Option GraphNode) (fuel depth : Nat),
          (buildContentNode (previewTraversal g rootNodeId apiBudget).entries
              nodeData (fuel + 1) v depth).children.map CNode.id = e.limited
          ∧ (buildContentNode (previewTraversal g rootNodeId apiBudget).entries
              nodeData (fuel + 1) v depth).shownChildren = e.limited.length
          ∧ (buildContentNode (previewTraversal g rootNodeId apiBudget).entries
              nodeData (fuel + 1) v depth).totalChildren = e.total
          ∧ (buildContentNode (previewTraversal g rootNodeId apiBudget).entries
              nodeData (fuel + 1) v depth).hasMoreChildren = true
          ∧ (buildContentNode (previewTraversal g rootNodeId apiBudget).entries
              nodeData 0 v depth).children = []) := by
  have hshape := previewTraversal_entry_shape g rootNodeId apiBudget v e he
  have htotal : e.total = (g v).length := by
    rw [hshape, mkChildEntry_total]
  have hMlt : (previewTraversal g rootNodeId apiBudget).finalStrategy.maxBreadth
      < (g v).length := by
    rw [← htotal]
    exact hM
  have hlen : e.limited.length
      = (previewTraversal g rootNodeId apiBudget).finalStrategy.maxBreadth := by
    rw [hshape, mkChildEntry_limited, List.length_take]
    omega
  have hmore : e.hasMore = true := by
    rw [hshape, mkChildEntry_hasMore]
    simp only [gt_iff_lt, decide_eq_true_eq]
    exact hMlt
  refine ⟨?_, hlen, htotal, hmore, ?_⟩
  · rw [hshape, mkChildEntry_limited]
  · intro nodeData fuel depth
    refine ⟨?_, ?_, ?_, ?_, ?_⟩
    · simp only [buildContentNode, he, mkContentNode, List.map_map]
      have hcomp : (CNode.id ∘ fun child =>
          buildContentNode (previewTraversal g rootNodeId apiBudget).entries
            nodeData fuel child (depth + 1)) = fun child => child := by
        funext c
        simp [buildContentNode_id]
      rw [hcomp]
      exact List.map_id' e.limited
    · simp [buildContentNode, he, mkContentNode]
    · simp [buildContentNode, he, mkContentNode]
    · simp only [buildContentNode, he, mkContentNode]
      simpa using hmore
    · simp [buildContentNode, mkContentNode]

/-- C4 witness: the truncation theorem applied to node "x" of exC4g,
whose 21 children exceed the active breadth limit 20. -/
theorem previewContent_breadth_truncation_witness :
    (lookupEntry (previewTraversal exC4g "global-root-id" 8).entries "x"
        = some (mkChildEntry exC4g 20 "x"))
      ∧ (previewTraversal exC4g "global-root-id" 8).finalStrategy.maxBreadth
          < (mkChildEntry exC4g 20 "x").total
      ∧ (mkChildEntry exC4g 20 "x").limited.length
          = (previewTraversal exC4g "global-root-id" 8).finalStrategy.maxBreadth :=
  ⟨by decide, by decide,
    (previewContent_breadth_truncation exC4g "global-root-id" 8 "x"
      (mkChildEntry exC4g 20 "x") (by decide) (by decide)).2.1⟩

theorem getChildNodesAnnotated_children_backed_witness :
    (AnnotatedChild.mk ⟨"y", []⟩ false 0
        ∈ getChildNodesAnnotated exLayerC9 ⟨[], []⟩ "p")
      ∧ (lookupNode exLayerC9
          (AnnotatedChild.mk ⟨"y", []⟩ false 0).node.id).isSome :=
  ⟨by decide,
    getChildNodesAnnotated_children_backed exLayerC9 ⟨[], []⟩ "p"
      (AnnotatedChild.mk ⟨"y", []⟩ false 0) (by decide)⟩

theorem bulkChildIds_length_le (rels : List Relation) (v : String) :
    (bulkChildIds rels v).length ≤ 200 := by
  unfold bulkChildIds
  rw [List.length_map, List.length_take]
  exact min_le_left _ _

theorem addChild_fst_mono (acc : List String × List String) (c x : String)
    (h : x ∈ acc.1) : x ∈ (addChild acc c).1 := by
  unfold addChild
  split
  · exact List.mem_append_left _ h
  · exact h

theorem addChild_snd_mono (acc : List String × List String) (c x : String)
    (h : x ∈ acc.2) : x ∈ (addChild acc c).2 := by
  unfold addChild
  split
  · exact List.mem_append_left _ h
  · exact h

theorem foldl_addChild_fst_mono :
    ∀ (cs : List String) (acc : List String × List String) (x : String),
      x ∈ acc.1 → x ∈ (cs.foldl addChild acc).1 := by
  intro cs
  induction cs with
  | nil => intro acc x h; exact h
  | cons c cs ih =>
    intro acc x h
    exact ih (addChild acc c) x (addChild_fst_mono acc c x h)

theorem foldl_addChild_snd_mono :
    ∀ (cs : List String) (acc : List String × List String) (x : String),
      x ∈ acc.2 → x ∈ (cs.foldl addChild acc).2 := by
  intro cs
  induction cs with
  | nil => intro acc x h; exact h
  | cons c cs ih =>
    intro acc x h
    exact ih (addChild acc c) x (addChild_snd_mono acc c x h)

theorem addChild_fst_length (acc : List String × List String) (c : String) :
    (addChild acc c).1.length ≤ acc.1.length + 1 := by
  unfold addChild
  split
  · simp
  · omega

theorem foldl_addChild_fst_length :
    ∀ (cs : List String) (acc : List String × List String),
      (cs.foldl addChild acc).1.length ≤ acc.1.length + cs.length := by
  intro cs
  induction cs with
  | nil => intro acc; simp
  | cons c cs ih =>
    intro acc
    have h1 := ih (addChild acc c)
    have h2 := addChild_fst_length acc c
    simp only [List.foldl_cons, List.length_cons]
    omega

theorem foldl_addChild_mem :
    ∀ (cs : List String) (acc : List String × List String) (b : String),
      b ∈ cs → b ∉ acc.1 → acc.1.length + cs.length ≤ 2000 →
      b ∈ (cs.foldl addChild acc).1 ∧ b ∈ (cs.foldl addChild acc).2 := by
  intro cs
  induction cs with
  | nil =>
    intro acc b hb
    simp at hb
  | cons c cs ih =>
    intro acc b hb hnotin hlen
    simp only [List.foldl_cons]
    by_cases hbc : b = c
    · subst hbc
      have hcond : ¬ acc.1.contains b ∧ acc.1.length < 2000 := by
        constructor
        · simpa using hnotin
        · simp only [List.length_cons] at hlen
          omega
      have hadd1 : (addChild acc b).1 = acc.1 ++ [b] := by
        unfold addChild
        rw [if_pos hcond]
      have hadd2 : (addChild acc b).2 = acc.2 ++ [b] := by
        unfold addChild
        rw [if_pos hcond]
      constructor
      · refine foldl_addChild_fst_mono cs _ b ?_
        rw [hadd1]
        exact List.mem_append_right _ (List.mem_singleton.mpr rfl)
      · refine foldl_addChild_snd_mono cs _ b ?_
        rw [hadd2]
        exact List.mem_append_right _ (List.mem_singleton.mpr rfl)
    · have hb' : b ∈ cs := by
        rcases List.mem_cons.mp hb with h | h
        · exact absurd h hbc
        · exact h
      have hnotin' : b ∉ (addChild acc c).1 := by
        unfold addChild
        split
        · intro hmem
          rcases List.mem_append.mp hmem with h | h
          · exact hnotin h
          · exact hbc (List.mem_singleton.mp h)
        · exact hnotin
      have hlen' : (addChild acc c).1.length + cs.length ≤ 2000 := by
        have h2 := addChild_fst_length acc c
        simp only [List.length_cons] at hlen
        omega
      exact ih (addChild acc c) b hb' hnotin' hlen'

theorem lookupRel_processNode (rels : List Relation) (st : BfsState)
    (v w : String) :
    lookupRel (processNode rels st v) w
      = if w = v then some (bulkChildIds rels v) else lookupRel st w := by
  unfold lookupRel processNode
  simp only [List.reverse_append, List.reverse_cons, List.reverse_nil,
    List.nil_append, List.singleton_append, List.find?]
  by_cases hw : w = v
  · subst hw
    simp
  · have hbeq : (v == w) = false := by
      simp [beq_iff_eq]
      intro heq
      exact hw heq.symm
    simp [hbeq]
    rw [if_neg hw]

theorem foldl_processNode_preserves_lookup (rels : List Relation) :
    ∀ (level : List String) (st : BfsState) (w : String),
      lookupRel st w = some (bulkChildIds rels w) →
      lookupRel (level.foldl (processNode rels) st) w
        = some (bulkChildIds rels w) := by
  intro level
  induction level with
  | nil => intro st w h; exact h
  | cons v level ih =>
    intro st w h
    simp only [List.foldl_cons]
    apply ih
    rw [lookupRel_processNode]
    split
    · next heq => rw [heq]
    · exact h

theorem foldl_processNode_mem_lookup (rels : List Relation) :
    ∀ (level : List String) (st : BfsState) (w : String), w ∈ level →
      lookupRel (level.foldl (processNode rels) st) w
        = some (bulkChildIds rels w) := by
  intro level
  induction level with
  | nil =>
    intro st w hw
    simp at hw
  | cons v level ih =>
    intro st w hw
    simp only [List.foldl_cons]
    by_cases hwv : w = v
    · subst hwv
      apply foldl_processNode_preserves_lookup
      rw [lookupRel_processNode, if_pos rfl]
    · rcases List.mem_cons.mp hw with h | h
      · exact absurd h hwv
      · exact ih (processNode rels st v) w h

theorem processNode_all_mono (rels : List Relation) (st : BfsState)
    (v x : String) (h : x ∈ st.all) : x ∈ (processNode rels st v).all :=
  foldl_addChild_fst_mono _ _ _ h

theorem foldl_processNode_all_mono (rels : List Relation) :
    ∀ (level : List String) (st : BfsState) (x : String),
      x ∈ st.all → x ∈ (level.foldl (processNode rels) st).all := by
  intro level
  induction level with
  | nil => intro st x h; exact h
  | cons v level ih =>
    intro st x h
    exact ih (processNode rels st v) x (processNode_all_mono rels st v x h)

theorem bfsLoop_preserves_lookup (rels : List Relation) :
    ∀ (fuel : Nat) (level : List String) (st : BfsState) (w : String),
      lookupRel st w = some (bulkChildIds rels w) →
      lookupRel (bfsLoop rels fuel level st) w
        = some (bulkChildIds rels w) := by
  intro fuel
  induction fuel with
  | zero => intro level st w h; exact h
  | succ fuel ih =>
    intro level st w h
    rw [bfsLoop]
    split
    · exact h
    · exact ih _ _ w (foldl_processNode_preserves_lookup rels level _ w h)

theorem bfsLoop_preserves_all (rels : List Relation) :
    ∀ (fuel : Nat) (level : List String) (st : BfsState) (x : String),
      x ∈ st.all → x ∈ (bfsLoop rels fuel level st).all := by
  intro fuel
  induction fuel with
  | zero => intro level st x h; exact h
  | succ fuel ih =>
    intro level st x h
    rw [bfsLoop]
    split
    · exact h
    · exact ih _ _ x (foldl_processNode_all_mono rels level _ x h)

theorem bfsLoop_step (rels : List Relation) (fuel : Nat)
    (level : List String) (st : BfsState)
    (h1 : ¬ level.isEmpty) (h2 : st.all.length < 2000) :
    bfsLoop rels (fuel + 1) level st
      = bfsLoop rels fuel
          (level.foldl (processNode rels) ⟨st.all, st.rel, []⟩).next
          (level.foldl (processNode rels) ⟨st.all, st.rel, []⟩) := by
  rw [bfsLoop]
  rw [if_neg]
  push_neg
  exact ⟨h1, h2⟩

theorem bfs_two_steps_facts (rels : List Relation) (A B : String)
    (hAB : A ≠ A → False) (hABne : A ≠ B) (hBchild : B ∈ bulkChildIds rels A)
    (fuel : Nat) :
    lookupRel (bfsLoop rels (fuel + 1 + 1) [A] ⟨[A], [(A, [])], []⟩) A
        = some (bulkChildIds rels A)
      ∧ lookupRel (bfsLoop rels (fuel + 1 + 1) [A] ⟨[A], [(A, [])], []⟩) B
          = some (bulkChildIds rels B)
      ∧ A ∈ (bfsLoop rels (fuel + 1 + 1) [A] ⟨[A], [(A, [])], []⟩).all
      ∧ B ∈ (bfsLoop rels (fuel + 1 + 1) [A] ⟨[A], [(A, [])], []⟩).all := by
  have hstep1 := bfsLoop_step rels (fuel + 1) [A] ⟨[A], [(A, [])], []⟩
    (by simp) (by simp)
  rw [hstep1]
  simp only [List.foldl_cons, List.foldl_nil]
  set st1 := processNode rels ⟨[A], ([(A, [])] : List (String × List String)), ([] : List String)⟩ A with hst1
  have hlook1 : lookupRel st1 A = some (bulkChildIds rels A) := by
    rw [hst1, lookupRel_processNode, if_pos rfl]
  have hmemB : B ∈ st1.all ∧ B ∈ st1.next := by
    have := foldl_addChild_mem (bulkChildIds rels A) ([A], []) B hBchild
      (by
        intro hmem
        exact hABne (List.mem_singleton.mp hmem).symm)
      (by
        have := bulkChildIds_length_le rels A
        simp only [List.length_singleton]
        omega)
    exact this
  have hmemA1 : A ∈ st1.all :=
    foldl_addChild_fst_mono _ _ _ (List.mem_singleton.mpr rfl)
  have hlen1 : st1.all.length ≤ 201 := by
    have hEq : st1.all = ((bulkChildIds rels A).foldl addChild ([A], [])).1 :=
      rfl
    rw [hEq]
    have h1 := foldl_addChild_fst_length (bulkChildIds rels A) ([A], [])
    have h2 := bulkChildIds_length_le rels A
    simp only [List.length_singleton] at h1
    omega
  have hne1 : ¬ st1.next.isEmpty := by
    rw [List.isEmpty_iff]
    intro hnil
    rw [hnil] at hmemB
    exact absurd hmemB.2 (List.not_mem_nil B)
  have hstep2 := bfsLoop_step rels fuel st1.next st1 hne1 (by omega)
  rw [hstep2]
  set st2 := st1.next.foldl (processNode rels) ⟨st1.all, st1.rel, []⟩ with hst2
  have hlook2A : lookupRel st2 A = some (bulkChildIds rels A) := by
    rw [hst2]
    exact foldl_processNode_preserves_lookup rels st1.next _ A hlook1
  have hlook2B : lookupRel st2 B = some (bulkChildIds rels B) := by
    rw [hst2]
    exact foldl_processNode_mem_lookup rels st1.next _ B hmemB.2
  have hall2A : A ∈ st2.all := by
    rw [hst2]
    exact foldl_processNode_all_mono rels st1.next _ A hmemA1
  have hall2B : B ∈ st2.all := by
    rw [hst2]
    exact foldl_processNode_all_mono rels st1.next _ B hmemB.1
  exact ⟨bfsLoop_preserves_lookup rels fuel st2.next st2 A hlook2A,
    bfsLoop_preserves_lookup rels fuel st2.next st2 B hlook2B,
    bfsLoop_preserves_all rels fuel st2.next st2 A hall2A,
    bfsLoop_preserves_all rels fuel st2.next st2 B hall2B⟩

/-- The facts about the final BFS discovery state of mapStructure from a
single root A with a capped child B: both id lookups in the relationships
map give the source-truncated child lists, and both ids were discovered. -/
theorem bulkExpandFinal_root_facts (rels : List Relation) (A B : String)
    (hAB : A ≠ B) (hBchild : B ∈ bulkChildIds rels A) :
    lookupRel (bulkExpandFinal rels [A]) A = some (bulkChildIds rels A)
      ∧ lookupRel (bulkExpandFinal rels [A]) B = some (bulkChildIds rels B)
      ∧ A ∈ (bulkExpandFinal rels [A]).all
      ∧ B ∈ (bulkExpandFinal rels [A]).all :=
  bfs_two_steps_facts rels A B (fun h => h rfl) hAB hBchild 10

theorem buildFileTree_cycle (L : String → Option GraphNode)
    (R : String → Option (List String)) (fuel : Nat) (v : String)
    (depth : Nat) (visited : List String)
    (h : visited.contains v = true) :
    buildFileTree L R fuel v depth visited = some (cycleNode v depth) := by
  cases fuel with
  | zero =>
    simp only [buildFileTree]
    rw [if_pos h]
  | succ fuel =>
    simp only [buildFileTree]
    rw [if_pos h]

theorem buildFileTree_expand (L : String → Option GraphNode)
    (R : String → Option (List String)) (fuel : Nat) (v : String)
    (depth : Nat) (visited : List String) (nd : GraphNode)
    (hvis : visited.contains v = false) (hdepth : depth ≤ 15)
    (hload : L v = some nd) :
    buildFileTree L R (fuel + 1) v depth visited
      = some ⟨v, makeTitle nd, depth, ((R v).getD []).length,
          decide (((R v).getD []).length > 0),
          (((R v).getD []).take 100).filterMap
            (fun childId =>
              buildFileTree L R fuel childId (depth + 1) (v :: visited))⟩ := by
  have hvis2 : ¬ (visited.contains v = true) := by
    rw [hvis]
    exact Bool.false_ne_true
  have hd2 : ¬ (15 < depth) := by omega
  rw [buildFileTree]
  rw [if_neg hvis2, if_neg hd2, hload]

set_option maxRecDepth 40000 in
/-- C2 counterexample: the store exC2rels contains the cycle
A -> B -> A, yet because the A -> B edge is the 101st child relation of
A it falls outside the 100-child display cap of buildFileTree, and the
rendered structural map of A contains no [CYCLE DETECTED] node at all
(the map is A with 100 sentinel-free leaf children). -/
theorem mapStructure_cycle_counterexample :
    (Relation.mk "rAB" "A" "B" "child" none ∈ exC2rels
        ∧ Relation.mk "rBA" "B" "A" "child" none ∈ exC2rels)
      ∧ (mapStructureTree exC2rels exC2nodes "A").map noCycleSentinelShallow
          = some true := by
  constructor
  · constructor <;> decide
  · decide

/-- C2 (amended): for every store containing a cycle A -> B -> A in
which the A -> B edge is among the first 100 recorded child relations of
A and the B -> A edge among the first 100 of B (the structural mapper
caps discovery at 200 and rendering at 100 children per node), and both
node records exist, mapStructure from A terminates (buildFileTree is a
total function over its fuel, which encodes the hard depth ceiling) and
the rendered tree contains, under the child B, a [CYCLE DETECTED]
sentinel node with no children at the point where A is revisited. -/
theorem mapStructure_cycle_sentinel (rels : List Relation)
    (nodes : List GraphNode) (A B : String) (hAB : A ≠ B)
    (hBinA : B ∈ (bulkChildIds rels A).take 100)
    (hAinB : A ∈ (bulkChildIds rels B).take 100)
    (hnA : (nodes.find? (fun n => n.id == A)).isSome = true)
    (hnB : (nodes.find? (fun n => n.id == B)).isSome = true) :
    ∃ t, mapStructureTree rels nodes A = some t
      ∧ ∃ c ∈ t.children, c.id = B
          ∧ ∃ d ∈ c.children, d.title = "[CYCLE DETECTED]"
              ∧ d.children = [] := by
  have hBA : B ∈ bulkChildIds rels A := List.mem_of_mem_take hBinA
  obtain ⟨hrelA, hrelB, hallA, hallB⟩ :=
    bulkExpandFinal_root_facts rels A B hAB hBA
  obtain ⟨nA, hfA⟩ := Option.isSome_iff_exists.mp hnA
  obtain ⟨nB, hfB⟩ := Option.isSome_iff_exists.mp hnB
  have hloadA : bulkLoadedNodes rels nodes [A] A = some nA := by
    unfold bulkLoadedNodes
    rw [if_pos (by simpa using hallA), hfA]
  have hloadB : bulkLoadedNodes rels nodes [A] B = some nB := by
    unfold bulkLoadedNodes
    rw [if_pos (by simpa using hallB), hfB]
  have hRA : bulkRelationships rels [A] A = some (bulkChildIds rels A) := hrelA
  have hRB : bulkRelationships rels [A] B = some (bulkChildIds rels B) := hrelB
  have hvisB : ([A].contains B) = false := by
    simp only [List.contains_cons, List.contains_nil, Bool.or_false]
    simp [beq_iff_eq]
    intro heq
    exact hAB heq.symm
  have hd : buildFileTree (bulkLoadedNodes rels nodes [A])
      (bulkRelationships rels [A]) 14 A 2 (B :: [A])
        = some (cycleNode A 2) := by
    apply buildFileTree_cycle
    simp
  have hc : buildFileTree (bulkLoadedNodes rels nodes [A])
      (bulkRelationships rels [A]) 15 B 1 [A]
      = some ⟨B, makeTitle nB, 1, (bulkChildIds rels B).length,
          decide ((bulkChildIds rels B).length > 0),
          ((bulkChildIds rels B).take 100).filterMap
            (fun childId =>
              buildFileTree (bulkLoadedNodes rels nodes [A])
                (bulkRelationships rels [A]) 14 childId 2 (B :: [A]))⟩ := by
    rw [show (15 : Nat) = 14 + 1 from rfl]
    rw [buildFileTree_expand _ _ 14 B 1 [A] nB hvisB (by omega) hloadB]
    rw [hRB]
    rfl
  unfold mapStructureTree
  rw [show (16 : Nat) = 15 + 1 from rfl]
  rw [buildFileTree_expand _ _ 15 A 0 [] nA (by simp) (by omega) hloadA]
  rw [hRA]
  refine ⟨_, rfl, ?_⟩
  refine ⟨⟨B, makeTitle nB, 1, (bulkChildIds rels B).length,
      decide ((bulkChildIds rels B).length > 0),
      ((bulkChildIds rels B).take 100).filterMap
        (fun childId =>
          buildFileTree (bulkLoadedNodes rels nodes [A])
            (bulkRelationships rels [A]) 14 childId 2 (B :: [A]))⟩,
    ?_, rfl, cycleNode A 2, ?_, rfl, rfl⟩
  · refine List.mem_filterMap.mpr ⟨B, ?_, hc⟩
    simpa using hBinA
  · exact List.mem_filterMap.mpr ⟨A, hAinB, hd⟩

/-- C2 witness: the sentinel theorem applied to the two-relation store
with the bare cycle A -> B -> A and both records present. -/
theorem mapStructure_cycle_sentinel_witness :
    (("A" : String) ≠ "B")
      ∧ ("B" ∈ (bulkChildIds [Relation.mk "rAB" "A" "B" "child" none,
            Relation.mk "rBA" "B" "A" "child" none] "A").take 100)
      ∧ ("A" ∈ (bulkChildIds [Relation.mk "rAB" "A" "B" "child" none,
            Relation.mk "rBA" "B" "A" "child" none] "B").take 100)
      ∧ (∃ t, mapStructureTree
            [Relation.mk "rAB" "A" "B" "child" none,
             Relation.mk "rBA" "B" "A" "child" none]
            [GraphNode.mk "A" [⟨"text", "a"⟩], GraphNode.mk "B" [⟨"text", "b"⟩]]
            "A" = some t
          ∧ ∃ c ∈ t.children, c.id = "B"
              ∧ ∃ d ∈ c.children, d.title = "[CYCLE DETECTED]"
                  ∧ d.children = []) :=
  ⟨by decide, by decide, by decide,
    mapStructure_cycle_sentinel
      [Relation.mk "rAB" "A" "B" "child" none,
       Relation.mk "rBA" "B" "A" "child" none]
      [GraphNode.mk "A" [⟨"text", "a"⟩], GraphNode.mk "B" [⟨"text", "b"⟩]]
      "A" "B" (by decide) (by decide) (by decide) (by decide) (by decide)⟩

theorem char_valid_nat (c : Char) :
    c.toNat < 0xD800 ∨ (0xE000 ≤ c.toNat ∧ c.toNat < 0x110000) := by
  have h := c.valid
  unfold UInt32.isValidChar Nat.isValidChar at h
  unfold Char.toNat
  omega

theorem char_toNat_lt (c : Char) : c.toNat < 0x110000 := by
  rcases char_valid_nat c with h | h
  · omega
  · omega

theorem hexVal_hexDigitChar : ∀ k, k < 16 → hexVal (hexDigitChar k) = some k := by
  decide

theorem utf8Bytes_lt (n : Nat) (h : n < 0x110000) :
    ∀ b ∈ utf8Bytes n, b < 256 := by
  intro b hb
  unfold utf8Bytes at hb
  split at hb
  · simp only [List.mem_singleton] at hb
    omega
  · split at hb
    · simp only [List.mem_cons, List.mem_singleton, List.not_mem_nil,
        or_false] at hb
      rcases hb with hb | hb <;> omega
    · split at hb
      · simp only [List.mem_cons, List.not_mem_nil, or_false] at hb
        rcases hb with hb | hb | hb <;> omega
      · simp only [List.mem_cons, List.not_mem_nil, or_false] at hb
        rcases hb with hb | hb | hb | hb <;> omega

theorem utf8Bytes_ne_nil (n : Nat) : utf8Bytes n ≠ [] := by
  unfold utf8Bytes
  split
  · simp
  · split
    · simp
    · split <;> simp

theorem uriTokens_cons_of_ne (c : Char) (rest : List Char)
    (hc : ¬ c = '%') :
    uriTokens (c :: rest)
      = (uriTokens rest).map (fun ts => .chr c :: ts) := by
  match rest with
  | [] => simp [uriTokens, hc]
  | [h1] => simp [uriTokens, hc]
  | h1 :: h2 :: rest2 => simp [uriTokens, hc]

theorem uriTokens_pct (h1 h2 : Char) (rest2 : List Char) :
    uriTokens ('%' :: h1 :: h2 :: rest2)
      = match hexVal h1, hexVal h2 with
        | some a, some b =>
          (uriTokens rest2).map (fun ts => .byt (16 * a + b) :: ts)
        | _, _ => none := by
  simp [uriTokens]

theorem uriTokens_triple (b : Nat) (hb : b < 256) (rest : List Char) :
    uriTokens ('%' :: hexDigitChar (b / 16) :: hexDigitChar (b % 16) :: rest)
      = (uriTokens rest).map (fun ts => .byt b :: ts) := by
  rw [uriTokens_pct]
  have h1 : hexVal (hexDigitChar (b / 16)) = some (b / 16) :=
    hexVal_hexDigitChar _ (by omega)
  have h2 : hexVal (hexDigitChar (b % 16)) = some (b % 16) :=
    hexVal_hexDigitChar _ (by omega)
  rw [h1, h2]
  have hval : 16 * (b / 16) + b % 16 = b := by omega
  show (uriTokens rest).map
      (fun ts => UriToken.byt (16 * (b / 16) + b % 16) :: ts)
    = (uriTokens rest).map (fun ts => UriToken.byt b :: ts)
  rw [hval]

theorem uriTokens_bytes (bs : List Nat) (rest : List Char)
    (hbs : ∀ b ∈ bs, b < 256) :
    uriTokens
        (((bs.map (fun b =>
            ['%', hexDigitChar (b / 16), hexDigitChar (b % 16)])).flatten)
          ++ rest)
      = (uriTokens rest).map (fun ts => bs.map UriToken.byt ++ ts) := by
  induction bs with
  | nil =>
    simp only [List.map_nil, List.flatten_nil, List.nil_append]
    cases uriTokens rest <;> rfl
  | cons b bs ih =>
    simp only [List.map_cons, List.flatten_cons, List.append_assoc,
      List.cons_append, List.nil_append]
    rw [uriTokens_triple b (hbs b (List.mem_cons_self b bs))]
    rw [ih (fun x hx => hbs x (List.mem_cons_of_mem b hx))]
    cases uriTokens rest <;> rfl

theorem uriTokens_encodeChar (c : Char) (rest : List Char) :
    uriTokens (encodeChar c ++ rest)
      = (uriTokens rest).map (fun ts => tokensOfChar c ++ ts) := by
  by_cases hu : uriUnreservedNat c.toNat
  · have hcp : ¬ (c = '%') := by
      intro he
      rw [he] at hu
      exact absurd hu (by decide)
    simp only [encodeChar, tokensOfChar, if_pos hu, List.singleton_append]
    rw [uriTokens_cons_of_ne c rest hcp]
  · simp only [encodeChar, tokensOfChar, if_neg hu]
    rw [uriTokens_bytes _ rest (utf8Bytes_lt c.toNat (char_toNat_lt c))]

theorem utf8Step_chr (c : Char) (ts : List UriToken) :
    utf8Step (.chr c :: ts) = some (c, ts) := rfl

theorem utf8Step_one (b0 : Nat) (ts : List UriToken) (h : b0 < 0x80) :
    utf8Step (.byt b0 :: ts) = some (Char.ofNat b0, ts) := by
  cases ts with
  | nil => simp [utf8Step, h]
  | cons t ts =>
    cases t <;> simp [utf8Step, h] <;> omega

theorem utf8Step_two (b0 b1 : Nat) (ts : List UriToken)
    (h0 : 0xC2 ≤ b0) (h0' : b0 < 0xE0) (h1 : 0x80 ≤ b1) (h1' : b1 < 0xC0) :
    utf8Step (.byt b0 :: .byt b1 :: ts)
      = some (Char.ofNat ((b0 - 0xC0) * 64 + (b1 - 0x80)), ts) := by
  simp [utf8Step, h0, h0', h1, h1', (by omega : ¬ (b0 < 0x80))]
  all_goals omega

theorem utf8Step_three (b0 b1 b2 : Nat) (ts : List UriToken)
    (h0 : 0xE0 ≤ b0) (h0' : b0 < 0xF0) (h1 : 0x80 ≤ b1) (h1' : b1 < 0xC0)
    (h2 : 0x80 ≤ b2) (h2' : b2 < 0xC0)
    (hn : 0x800 ≤ (b0 - 0xE0) * 4096 + (b1 - 0x80) * 64 + (b2 - 0x80))
    (hs : (b0 - 0xE0) * 4096 + (b1 - 0x80) * 64 + (b2 - 0x80) < 0xD800
        ∨ 0xE000 ≤ (b0 - 0xE0) * 4096 + (b1 - 0x80) * 64 + (b2 - 0x80)) :
    utf8Step (.byt b0 :: .byt b1 :: .byt b2 :: ts)
      = some (Char.ofNat
          ((b0 - 0xE0) * 4096 + (b1 - 0x80) * 64 + (b2 - 0x80)), ts) := by
  simp [utf8Step, h0, h0', h1, h1', h2, h2', hn, hs,
    (by omega : ¬ (b0 < 0x80)), (by omega : ¬ (0xC2 ≤ b0 ∧ b0 < 0xE0))]
  split
  · omega
  · split
    · omega
    · rfl

theorem utf8Step_four (b0 b1 b2 b3 : Nat) (ts : List UriToken)
    (h0 : 0xF0 ≤ b0) (h0' : b0 < 0xF5) (h1 : 0x80 ≤ b1) (h1' : b1 < 0xC0)
    (h2 : 0x80 ≤ b2) (h2' : b2 < 0xC0) (h3 : 0x80 ≤ b3) (h3' : b3 < 0xC0)
    (hn : 0x10000 ≤ (b0 - 0xF0) * 262144 + (b1 - 0x80) * 4096
        + (b2 - 0x80) * 64 + (b3 - 0x80))
    (hn' : (b0 - 0xF0) * 262144 + (b1 - 0x80) * 4096
        + (b2 - 0x80) * 64 + (b3 - 0x80) < 0x110000) :
    utf8Step (.byt b0 :: .byt b1 :: .byt b2 :: .byt b3 :: ts)
      = some (Char.ofNat ((b0 - 0xF0) * 262144 + (b1 - 0x80) * 4096
          + (b2 - 0x80) * 64 + (b3 - 0x80)), ts) := by
  simp [utf8Step, h0, h0', h1, h1', h2, h2', h3, h3', hn, hn',
    (by omega : ¬ (b0 < 0x80)), (by omega : ¬ (0xC2 ≤ b0 ∧ b0 < 0xE0)),
    (by omega : ¬ (0xE0 ≤ b0 ∧ b0 < 0xF0))]
  split
  · omega
  · split
    · omega
    · split
      · split
        · omega
        · omega
      · rfl

/-- utf8Step consumes the encoding of one character exactly. -/
theorem utf8Step_encodeChar (c : Char) (ts : List UriToken) :
    utf8Step (tokensOfChar c ++ ts) = some (c, ts) := by
  by_cases hu : uriUnreservedNat c.toNat
  · simp only [tokensOfChar, if_pos hu, List.singleton_append]
    rw [utf8Step_chr]
  · simp only [tokensOfChar, if_neg hu]
    by_cases h1 : c.toNat < 0x80
    · rw [utf8Bytes, if_pos h1]
      simp only [List.map_cons, List.map_nil, List.singleton_append]
      rw [utf8Step_one _ _ h1, Char.ofNat_toNat]
    · by_cases h2 : c.toNat < 0x800
      · rw [utf8Bytes, if_neg h1, if_pos h2]
        simp only [List.map_cons, List.map_nil, List.cons_append,
          List.nil_append]
        rw [utf8Step_two _ _ _ (by omega) (by omega) (by omega) (by omega)]
        have hval : (0xC0 + c.toNat / 64 - 0xC0) * 64
            + (0x80 + c.toNat % 64 - 0x80) = c.toNat := by omega
        rw [hval, Char.ofNat_toNat]
      · by_cases h3 : c.toNat < 0x10000
        · rcases char_valid_nat c with hval | hval
          all_goals rw [utf8Bytes, if_neg h1, if_neg h2, if_pos h3]
          all_goals simp only [List.map_cons, List.map_nil, List.cons_append,
            List.nil_append]
          all_goals rw [utf8Step_three _ _ _ _ (by omega) (by omega)
            (by omega) (by omega) (by omega) (by omega) (by omega)
            (by omega)]
          all_goals have heq : (0xE0 + c.toNat / 4096 - 0xE0) * 4096
              + (0x80 + c.toNat / 64 % 64 - 0x80) * 64
              + (0x80 + c.toNat % 64 - 0x80) = c.toNat := by omega
          all_goals rw [heq, Char.ofNat_toNat]
        · have hlt := char_toNat_lt c
          rw [utf8Bytes, if_neg h1, if_neg h2, if_neg h3]
          simp only [List.map_cons, List.map_nil, List.cons_append,
            List.nil_append]
          rw [utf8Step_four _ _ _ _ _ (by omega) (by omega) (by omega)
            (by omega) (by omega) (by omega) (by omega) (by omega)
            (by omega) (by omega)]
          have heq : (0xF0 + c.toNat / 262144 - 0xF0) * 262144
              + (0x80 + c.toNat / 4096 % 64 - 0x80) * 4096
              + (0x80 + c.toNat / 64 % 64 - 0x80) * 64
              + (0x80 + c.toNat % 64 - 0x80) = c.toNat := by omega
          rw [heq, Char.ofNat_toNat]

theorem tokensOfChar_ne_nil (c : Char) : tokensOfChar c ≠ [] := by
  unfold tokensOfChar
  by_cases hu : uriUnreservedNat c.toNat
  · simp [hu]
  · simp only [if_neg hu]
    intro h
    exact utf8Bytes_ne_nil c.toNat (List.map_eq_nil_iff.mp h)

theorem tokensOfList_cons (c : Char) (cs : List Char) :
    tokensOfList (c :: cs) = tokensOfChar c ++ tokensOfList cs := rfl

theorem utf8DecodeAux_encode_list : ∀ (cs : List Char) (fuel : Nat),
    (tokensOfList cs).length ≤ fuel →
    utf8DecodeAux fuel (tokensOfList cs) = some cs := by
  intro cs
  induction cs with
  | nil => intro fuel _; cases fuel <;> rfl
  | cons c cs ih =>
    intro fuel hlen
    rw [tokensOfList_cons] at hlen ⊢
    have hstep := utf8Step_encodeChar c (tokensOfList cs)
    rcases hhead : tokensOfChar c with _ | ⟨t, ts0⟩
    · exact absurd hhead (tokensOfChar_ne_nil c)
    · rw [hhead, List.cons_append] at hstep
      cases fuel with
      | zero =>
        exfalso
        rw [hhead] at hlen
        simp only [List.cons_append, List.length_cons] at hlen
        omega
      | succ fuel =>
        rw [List.cons_append]
        have hred : utf8DecodeAux (fuel + 1) (t :: (ts0 ++ tokensOfList cs))
            = match utf8Step (t :: (ts0 ++ tokensOfList cs)) with
              | some (c2, rest2) =>
                (utf8DecodeAux fuel rest2).map (fun l => c2 :: l)
              | none => none := rfl
        rw [hred, hstep]
        show (utf8DecodeAux fuel (tokensOfList cs)).map (fun l => c :: l)
          = some (c :: cs)
        rw [ih fuel (by
          rw [hhead] at hlen
          simp only [List.cons_append, List.length_cons,
            List.length_append] at hlen
          omega)]
        rfl

theorem utf8Decode_encode_list (cs : List Char) :
    utf8Decode (tokensOfList cs) = some cs :=
  utf8DecodeAux_encode_list cs _ (Nat.le_refl _)

theorem uriTokens_encode_list (cs : List Char) :
    uriTokens ((cs.map encodeChar).flatten) = some (tokensOfList cs) := by
  induction cs with
  | nil => rfl
  | cons c cs ih =>
    simp only [List.map_cons, List.flatten_cons]
    rw [uriTokens_encodeChar, ih]
    rfl

/-- decodeURIComponent inverts encodeURIComponent on every string. -/
theorem decode_encodeURIComponent (s : String) :
    decodeURIComponentJs (encodeURIComponent s) = some s := by
  unfold decodeURIComponentJs encodeURIComponent
  rw [show (String.mk ((s.toList.map encodeChar).flatten)).toList
      = (s.toList.map encodeChar).flatten from rfl]
  rw [uriTokens_encode_list]
  rw [Option.some_bind]
  rw [utf8Decode_encode_list]
  rfl

theorem hexDigitChar_ne_slash : ∀ k, k < 16 → hexDigitChar k ≠ '/' := by
  decide

theorem encodeChar_ne_slash (c : Char) : ∀ x ∈ encodeChar c, x ≠ '/' := by
  intro x hx
  unfold encodeChar at hx
  split at hx
  · next hu =>
    simp only [List.mem_singleton] at hx
    subst hx
    intro he
    rw [he] at hu
    exact absurd hu (by decide)
  · obtain ⟨l, hl, hxl⟩ := List.mem_flatten.mp hx
    obtain ⟨b, hb, hbl⟩ := List.mem_map.mp hl
    subst hbl
    have hblt : b < 256 := utf8Bytes_lt c.toNat (char_toNat_lt c) b hb
    simp only [List.mem_cons, List.mem_singleton, List.not_mem_nil,
      or_false] at hxl
    rcases hxl with h | h | h
    · subst h
      decide
    · subst h
      exact hexDigitChar_ne_slash _ (by omega)
    · subst h
      exact hexDigitChar_ne_slash _ (by omega)

theorem encode_toList_no_slash (s : String) :
    ((encodeURIComponent s).toList.contains '/') = false := by
  have hmem : ('/' : Char) ∉ (s.toList.map encodeChar).flatten := by
    intro hmem
    obtain ⟨l, hl, hx⟩ := List.mem_flatten.mp hmem
    obtain ⟨c, _, hcl⟩ := List.mem_map.mp hl
    rw [← hcl] at hx
    exact encodeChar_ne_slash c '/' hx rfl
  rw [show (encodeURIComponent s).toList
      = (s.toList.map encodeChar).flatten from rfl]
  simpa using hmem

theorem encodeChar_ne_nil (c : Char) : encodeChar c ≠ [] := by
  unfold encodeChar
  split
  · simp
  · intro h
    rcases hb : utf8Bytes c.toNat with _ | ⟨b, bs⟩
    · exact utf8Bytes_ne_nil c.toNat hb
    · rw [hb] at h
      simp at h

theorem encode_toList_ne_nil (s : String) (h : s ≠ "") :
    (encodeURIComponent s).toList ≠ [] := by
  rw [show (encodeURIComponent s).toList
      = (s.toList.map encodeChar).flatten from rfl]
  rcases hs : s.toList with _ | ⟨c, cs⟩
  · exfalso
    apply h
    cases s with
    | mk data =>
      simp only [String.toList] at hs
      rw [hs]
  · simp only [List.map_cons, List.flatten_cons]
    intro hnil
    rcases List.append_eq_nil.mp hnil with ⟨h1, _⟩
    exact encodeChar_ne_nil c h1

theorem findNodeCapture_append : ∀ (a cap : List Char),
    cap ≠ [] → (cap.contains '/') = false →
    findNodeCapture (a ++ '/' :: ("node-".toList ++ cap)) = some cap := by
  intro a
  induction a with
  | nil =>
    intro cap hne hns
    have hdrop : ("node-".toList ++ cap).drop 5 = cap := by
      have h := List.drop_left "node-".toList cap
      simpa using h
    have htake : ("node-".toList ++ cap).take 5 = "node-".toList := by
      have h := List.take_left "node-".toList cap
      simpa using h
    rw [List.nil_append, findNodeCapture]
    rw [if_pos ⟨rfl, htake, by rw [hdrop]; exact hne,
      by rw [hdrop, hns]; simp⟩]
    rw [hdrop]
  | cons x a ih =>
    intro cap hne hns
    rw [List.cons_append, findNodeCapture]
    rw [if_neg ?hneg]
    · exact ih cap hne hns
    case hneg =>
      rintro ⟨hx, htake, hne2, hnc⟩
      have hmem : ('/' : Char) ∈ a ++ '/' :: ("node-".toList ++ cap) := by
        simp
      rw [← List.take_append_drop 5 (a ++ '/' :: ("node-".toList ++ cap))]
        at hmem
      rcases List.mem_append.mp hmem with h | h
      · rw [htake] at h
        exact absurd h (by decide)
      · exact hnc (by simpa using h)

theorem replace7C_of_not_contains :
    ∀ l : List Char, contains7C l = false → replace7C l = l
  | [] => fun _ => rfl
  | [c] => fun _ => rfl
  | [c, c1] => fun _ => rfl
  | c :: c1 :: c2 :: rest => fun h => by
    rw [contains7C] at h
    simp only [Bool.or_eq_false_iff] at h
    obtain ⟨h1, h2⟩ := h
    rw [replace7C, if_neg ?hneg]
    · rw [replace7C_of_not_contains (c1 :: c2 :: rest) h2]
    case hneg =>
      rintro ⟨hc, h7, hC⟩
      subst hc
      subst h7
      rcases hC with hC | hC <;> subst hC <;> simp at h1

/-- C10 counterexample: URL construction and parsing do not round-trip
for every non-empty node id.  The id a%7Cb survives encoding and
decoding, but the extra replace(/%7C/gi, pipe) pass of
parseNodeIdFromUrl rewrites its literal %7C, returning a|b instead. -/
theorem parseNodeIdFromUrl_roundtrip_counterexample :
    parseNodeIdFromUrl
        (getNodeUrl "https://mew-edge.ideaflow.app/" "auth0|u1" "a%7Cb")
        = .ok "a|b"
      ∧ ("a|b" : String) ≠ "a%7Cb" := by
  constructor
  · rfl
  · decide

/-- C10 (amended): for every non-empty node id whose text does not
contain a case-insensitive literal %7C, and any set current user id,
parseNodeIdFromUrl inverts getNodeUrl exactly; an id containing a
literal %7C has that substring rewritten to a pipe by the parser. -/
theorem parseNodeIdFromUrl_getNodeUrl (baseNodeUrl currentUserId
    nodeId : String) (huid : currentUserId ≠ "") (hnid : nodeId ≠ "")
    (h7c : contains7C nodeId.toList = false) :
    parseNodeIdFromUrl (getNodeUrl baseNodeUrl currentUserId nodeId)
      = .ok nodeId := by
  have hfind : findNodeCapture
      ((getNodeUrl baseNodeUrl currentUserId nodeId).toList)
        = some (encodeURIComponent nodeId).toList := by
    rw [getNodeUrl, if_neg huid]
    have hsplit : (baseNodeUrl
          ++ "g/all/global-root-to-users/all/users-to-user-relation-id-"
          ++ encodeURIComponent currentUserId
          ++ "/user-root-id-"
          ++ encodeURIComponent currentUserId
          ++ "/node-"
          ++ encodeURIComponent nodeId).toList
        = (baseNodeUrl.toList
            ++ "g/all/global-root-to-users/all/users-to-user-relation-id-".toList
            ++ (encodeURIComponent currentUserId).toList
            ++ ("/user-root-id-".toList
              ++ (encodeURIComponent currentUserId).toList))
          ++ '/' :: ("node-".toList
            ++ (encodeURIComponent nodeId).toList) := by
      show (baseNodeUrl.toList
          ++ "g/all/global-root-to-users/all/users-to-user-relation-id-".toList
          ++ (encodeURIComponent currentUserId).toList
          ++ "/user-root-id-".toList
          ++ (encodeURIComponent currentUserId).toList
          ++ "/node-".toList
          ++ (encodeURIComponent nodeId).toList) = _
      simp only [List.append_assoc]
      rfl
    rw [hsplit]
    exact findNodeCapture_append _ _
      (encode_toList_ne_nil nodeId hnid)
      (encode_toList_no_slash nodeId)
  have hdec : decodeURIComponentJs
      (⟨(encodeURIComponent nodeId).toList⟩ : String) = some nodeId :=
    decode_encodeURIComponent nodeId
  simp only [parseNodeIdFromUrl, hfind, hdec]
  rw [replace7C_of_not_contains nodeId.toList h7c]
  rfl

/-- C10 witness: the amended round-trip applied at concrete inputs. -/
theorem parseNodeIdFromUrl_getNodeUrl_witness :
    (("auth0|u1" : String) ≠ "")
      ∧ (("abc-123" : String) ≠ "")
      ∧ contains7C "abc-123".toList = false
      ∧ parseNodeIdFromUrl (getNodeUrl "https://x/" "auth0|u1" "abc-123")
          = .ok "abc-123" :=
  ⟨by decide, by decide, by decide,
    parseNodeIdFromUrl_getNodeUrl "https://x/" "auth0|u1" "abc-123"
      (by decide) (by decide) (by decide)⟩

end MewMcp
